import Mathlib

/-!
# K* top-k planner: a verification development

Shallow embedding of the parts of the `kstar` repository that the checked
properties are about:

* `top_k_eager_search::SearchControl` (`search/search_engines/top_k_eager_search.h`),
* `kstar::KStar::search` and the `kstar` plugin's `_parse`
  (`src/search/search_engines/kstar.cc`),
* `PatternGenerationHaslum` (`src/search/pdbs/pattern_generation_haslum.cc`).

C++ `int` is embedded as `Int`. The sum in `SearchControl::check_interrupt` and
the `int` `combined_size` of `find_best_improving_pdb` are reduced to the 32-bit
two's-complement range with `wrapInt32`; the plan costs are taken in `Int`.
-/

/-! ## Machine integers -/

/-- Smallest value of a 32-bit `int`. -/
def INT_MIN : Int := -2147483648

/-- Largest value of a 32-bit `int` (`std::numeric_limits<int>::max()`). -/
def INT_MAX : Int := 2147483647

/-- Reduction of a mathematical integer to the 32-bit two's-complement range. -/
def wrapInt32 (x : Int) : Int := (x + 2147483648) % 4294967296 - 2147483648

/-- The mathematical value lies in the range of `int`. -/
def inInt32 (x : Int) : Prop := INT_MIN ≤ x ∧ x ≤ INT_MAX

instance (x : Int) : Decidable (inInt32 x) := by
  unfold inInt32; exact inferInstance

/-! ## `top_k_eager_search::SearchControl` -/

namespace top_k_eager_search

/-- The struct `SearchControl` of `top_k_eager_search.h`, with its default
member initialisers. -/
structure SearchControl where
  interrupt_immediatly : Bool := false
  optimal_solution_cost : Int := INT_MAX
  d : Int := -1
  f_u : Int := -1
  deriving DecidableEq, Repr

namespace SearchControl

/-- The member function `SearchControl::check_interrupt`:
`if (interrupt_immediatly || optimal_solution_cost + d <= f_u) return true; return false;`
with the `int` addition taken modulo `2^32`. -/
def check_interrupt (sc : SearchControl) : Bool :=
  if sc.interrupt_immediatly || decide (wrapInt32 (sc.optimal_solution_cost + sc.d) ≤ sc.f_u) then
    true
  else
    false

end SearchControl

end top_k_eager_search


/-! ## `kstar::KStar::search` -/

namespace kstar

/-- Modelled from the spec: the enumeration `SearchStatus` of `search_engine.h`,
which is not part of the given sources. `kstar.cc` names `IN_PROGRESS`,
`INTERRUPTED`, `TIMEOUT` and `SOLVED`; `FAILED` is the status the spec calls
Exhausted. -/
inductive SearchStatus where
  | IN_PROGRESS
  | TIMEOUT
  | FAILED
  | SOLVED
  | INTERRUPTED
  deriving DecidableEq, Repr

/-- The inherited member functions that `KStar::search` calls and the local
`utils::CountdownTimer`. Their bodies are not in `kstar.cc`; each is an arbitrary
function of the inherited state `σ` (search space, open list, wall clock, ...).
`interrupt`, `resume` and `initialize` are members of the base class and may
read and write the inherited member `status`; `step` reads it and its return
value is what `search` assigns to `status`; the timer only reads the clock.
None of them can touch `KStar::first_solution_found`. -/
structure BaseEngine (σ : Type) where
  initialize_base : SearchStatus → σ → SearchStatus × σ
  step : SearchStatus → σ → SearchStatus × σ
  is_expired : σ → Bool × σ
  interrupt : SearchStatus → σ → SearchStatus × σ
  resume : SearchStatus → σ → SearchStatus × σ

/-- The state of a `KStar` object as far as `search` reads and writes it. -/
structure KStar (σ : Type) where
  status : SearchStatus
  first_solution_found : Bool
  base : σ

/-- The constructor `KStar::KStar`: the base class is constructed (giving the
inherited state) and `first_solution_found(false)`. -/
def KStar.construct {σ : Type} (status : SearchStatus) (base : σ) : KStar σ :=
  { status := status, first_solution_found := false, base := base }

/-- A call made by `KStar::search`. -/
inductive Call where
  | step (returned : SearchStatus)
  | is_expired (answer : Bool)
  | interrupt
  | resume
  deriving DecidableEq, Repr

/-- One entry of the call log of a run: the call, and the value that
`first_solution_found` has when the call is made. -/
structure Entry where
  call : Call
  first_solution_found : Bool
  deriving DecidableEq, Repr

/-- The loop condition `status == IN_PROGRESS || status == INTERRUPTED`. -/
def KStar.loop_condition (s : SearchStatus) : Bool :=
  s == SearchStatus.IN_PROGRESS || s == SearchStatus.INTERRUPTED

/-- The body of the `while` loop of `KStar::search` (kstar.cc, lines 21-37).
Returns the state after the body, the calls made, and whether the body ended in
`break`. -/
def KStar.search_body {σ : Type} (E : BaseEngine σ) (k : KStar σ) :
    KStar σ × List Entry × Bool :=
  -- status = step();
  let r1 := E.step k.status k.base
  -- if (timer.is_expired()) { status = TIMEOUT; break; }
  let r2 := E.is_expired r1.2
  let log0 : List Entry :=
    [⟨Call.step r1.1, k.first_solution_found⟩, ⟨Call.is_expired r2.1, k.first_solution_found⟩]
  if r2.1 then
    ({ status := SearchStatus.TIMEOUT, first_solution_found := k.first_solution_found,
       base := r2.2 }, log0, true)
  else
    -- if (status == SOLVED && !first_solution_found) { interrupt(); first_solution_found = true; }
    let k3 : KStar σ × List Entry :=
      if r1.1 = SearchStatus.SOLVED ∧ k.first_solution_found = false then
        let r3 := E.interrupt r1.1 r2.2
        ({ status := r3.1, first_solution_found := true, base := r3.2 },
          [⟨Call.interrupt, k.first_solution_found⟩])
      else
        ({ status := r1.1, first_solution_found := k.first_solution_found, base := r2.2 }, [])
    -- if (status == INTERRUPTED) { resume(); }
    let k4 : KStar σ × List Entry :=
      if k3.1.status = SearchStatus.INTERRUPTED then
        let r4 := E.resume k3.1.status k3.1.base
        ({ status := r4.1, first_solution_found := k3.1.first_solution_found, base := r4.2 },
          [⟨Call.resume, k3.1.first_solution_found⟩])
      else
        (k3.1, [])
    (k4.1, log0 ++ k3.2 ++ k4.2, false)

/-- What is known of a run of `search` after a bounded number of loop
iterations: the state reached, the calls made so far, and whether the loop has
been left (so that `search` returns). -/
structure Run (σ : Type) where
  final : KStar σ
  log : List Entry
  returned : Bool

/-- The `while` loop of `KStar::search`, run for at most `fuel` iterations. -/
def KStar.search_loop {σ : Type} (E : BaseEngine σ) : Nat → KStar σ → Run σ
  | 0, k => { final := k, log := [], returned := !KStar.loop_condition k.status }
  | fuel + 1, k =>
    if KStar.loop_condition k.status then
      let b := KStar.search_body E k
      if b.2.2 then
        { final := b.1, log := b.2.1, returned := true }
      else
        let r := KStar.search_loop E fuel b.1
        { final := r.final, log := b.2.1 ++ r.log, returned := r.returned }
    else
      { final := k, log := [], returned := true }

/-- The member function `KStar::search`: `initialize()`, construction of the
timer (part of the inherited state), then the loop. -/
def KStar.search {σ : Type} (E : BaseEngine σ) (fuel : Nat) (k : KStar σ) : Run σ :=
  let r0 := E.initialize_base k.status k.base
  KStar.search_loop E fuel
    { status := r0.1, first_solution_found := k.first_solution_found, base := r0.2 }

/-- A concrete engine for test runs. The inherited state is a clock that `step`
advances by one; `step` returns `SOLVED` at clock values 1 and 4 and
`IN_PROGRESS` otherwise; the timer is expired from `deadline` on; `interrupt`
sets `status` to `INTERRUPTED` and `resume` sets it back to `IN_PROGRESS`. -/
def demoEngine (deadline : Nat) : BaseEngine Nat where
  initialize_base := fun st c => (st, c)
  step := fun _ c =>
    (if c = 1 ∨ c = 4 then SearchStatus.SOLVED else SearchStatus.IN_PROGRESS, c + 1)
  is_expired := fun c => (decide (deadline ≤ c), c)
  interrupt := fun _ c => (SearchStatus.INTERRUPTED, c)
  resume := fun _ c => (SearchStatus.IN_PROGRESS, c)

/-- The calls of a log, without the recorded flag. -/
def calls (log : List Entry) : List Call := log.map Entry.call

end kstar

/-! ## The `kstar` plugin's `_parse` (kstar.cc) -/

namespace kstar

/-- A value stored in an `options::Options` object, as far as `_parse` handles
it: a `bool`, a pointer to some object (open-list factory, evaluator), or a list
of heuristics. -/
inductive OptionValue where
  | bool (b : Bool)
  | object (id : Nat)
  | heuristic_list (l : List Nat)
  deriving DecidableEq, Repr

/-- The class `options::Options`: a map from option names to values. -/
structure Options where
  entries : List (String × OptionValue)
  deriving DecidableEq, Repr

/-- The member function `Options::set(key, value)`: stores the value under the key, replacing what
was there. -/
def Options.set (opts : Options) (key : String) (value : OptionValue) : Options :=
  { entries := (key, value) :: opts.entries.filter (fun e => e.1 ≠ key) }

/-- The member function `Options::get<bool>(key)`; `none` when the key is absent or not a `bool`. -/
def Options.get_bool (opts : Options) (key : String) : Option Bool :=
  match opts.entries.find? (fun e => e.1 = key) with
  | some (_, OptionValue.bool b) => some b
  | _ => none

/-- The `OptionParser` as `_parse` uses it: the options that `parser.parse()`
returns and the answer of `parser.dry_run()`. -/
structure OptionParser where
  parsed : Options
  dry_run : Bool
  deriving DecidableEq, Repr

/-- The function `_parse` of kstar.cc. The result is the `Options` object handed
to `new KStar(opts)`, or `none` for the null pointer returned in a dry run.
`create_astar` stands for
`search_common::create_astar_open_list_factory_and_f_eval`, which is not part of
the given sources. -/
def _parse (create_astar : Options → OptionValue × OptionValue) (parser : OptionParser) :
    Option Options :=
  let opts := parser.parsed
  if !parser.dry_run then
    let temp := create_astar opts
    let opts := opts.set "open" temp.1
    let opts := opts.set "f_eval" temp.2
    let opts := opts.set "reopen_closed" (OptionValue.bool true)
    let preferred_list : List Nat := []
    let opts := opts.set "preferred" (OptionValue.heuristic_list preferred_list)
    some opts
  else
    none

/-- Modelled from the spec: the constructor of `TopKEagerSearch`, which is not
part of the given sources, initialises the member `reopen_closed_nodes`
(top_k_eager_search.h, line 41) from the option `reopen_closed` ("controls A*
re-parenting on improved g"). -/
def TopKEagerSearch.reopen_closed_nodes (opts : Options) : Option Bool :=
  opts.get_bool "reopen_closed"

end kstar

/-! ## Path-graph Dijkstra and the orchestration loop

`kstar.h` only declares `queue_djkstra`, `djkstra_search`, `add_plan` and
`pg_succ_generator`; their code and `kstar_types.h` are not part of the given
sources. The definitions of this section follow the specification (sections 3,
4.3 and 4.5). -/

namespace kstar

/-- Modelled from the spec: a Dijkstra vertex `Node` (section 3), whose code
(`kstar_types.h`) is missing: a position in a tree heap `H_T`, which fixes the
SAP stored there, and the accumulated detour cost `g_pg`. -/
structure Node where
  heap_pos : Nat
  g_pg : Int
  deriving DecidableEq, Repr

/-- Modelled from the spec: the path graph that `pg_succ_generator` walks
(sections 4.2 and 4.3), whose code is missing. A heap node exposes its key δ
and its heap successors; the cross edge of a node leads to the top element of
`H_T(to(sap))` when that heap is not empty. -/
structure PathGraph where
  delta : Nat → Int
  children : Nat → List Nat
  cross : Nat → Option Nat

/-- Modelled from the spec: the edges out of a node (section 4.3), the missing
`SuccessorGenerator::get_successors`. A heap-structural edge to a child has
weight `δ(child) − δ(n.sap)`, the cross edge has weight `δ(top of
H_T(to(n.sap)))`; the successor carries the accumulated cost. -/
def PathGraph.get_successors (G : PathGraph) (n : Node) : List Node :=
  (G.children n.heap_pos).map
      (fun child => ⟨child, n.g_pg + (G.delta child - G.delta n.heap_pos)⟩) ++
    (match G.cross n.heap_pos with
     | some top => [⟨top, n.g_pg + G.delta top⟩]
     | none => [])

/-- Modelled from the spec: `queue_djkstra.top()` and `pop()` of the missing
`djkstra_search`: the frontier node of least `g_pg` (the quantity `d` of the
spec) and the rest of the frontier. -/
def extract_min : List Node → Option (Node × List Node)
  | [] => none
  | x :: xs =>
    match extract_min xs with
    | none => some (x, [])
    | some (m, rest) => if x.g_pg ≤ m.g_pg then some (x, xs) else some (m, x :: rest)

/-- Modelled from the spec: the A* side of the engine as the orchestration loop
sees it (section 4.5), whose code (`TopKEagerSearch`) is missing. `σ` is the
state of A* (tree, open list, sidetrack heaps): whether the open list is
non-empty, its least f-value `f_u`, the effect of running A* until its next
return, whether that run has found a shorter path to a state that Dijkstra
already refers to (section 4.3), the path graph that the current heaps define,
and whether the plan reconstructed from a node is accepted by `add_plan` (the
simple-plans filter). -/
structure AStarSide (σ : Type) where
  open_nonempty : σ → Bool
  f_u : σ → Int
  run_astar : σ → σ
  invalidated : σ → Bool
  graph : σ → PathGraph
  accept : σ → Node → Bool

/-- Modelled from the spec: the state of the orchestration loop (section 4.5):
the A* state, the Dijkstra frontier `queue_djkstra`, the closed set, and the
costs of the plans in `top_k_plans`, in emission order. `pass_start` is a
bookkeeping value: the number of plans that had been emitted when Dijkstra's
state was last reset (0 if it never was). -/
structure Orchestration (σ : Type) where
  astar : σ
  queue_djkstra : List Node
  closed : List Nat
  top_k_plans : List Int
  pass_start : Nat

/-- Modelled from the spec: the start of the loop of section 4.5, once A* has
found the first solution of cost `Cstar`: the first plan (the tree path to the
goal) is emitted, and the frontier is the root node `R` with `g_pg = 0`
(section 4.3). -/
def Orchestration.start {σ : Type} (Cstar : Int) (root : Nat) (astar : σ) : Orchestration σ :=
  { astar := astar, queue_djkstra := [⟨root, 0⟩], closed := [], top_k_plans := [Cstar],
    pass_start := 0 }

/-- Modelled from the spec: one Dijkstra pop (section 4.3): a popped node that
is already closed is dropped; otherwise it is closed, the plan of cost
`Cstar + g_pg` is emitted if the reconstructor accepts it, and the successors are
pushed. -/
def Orchestration.pop {σ : Type} (A : AStarSide σ) (Cstar : Int) (s : Orchestration σ)
    (n : Node) (rest : List Node) : Orchestration σ :=
  if n.heap_pos ∈ s.closed then
    { s with queue_djkstra := rest }
  else
    { s with
      queue_djkstra := rest ++ (A.graph s.astar).get_successors n,
      closed := n.heap_pos :: s.closed,
      top_k_plans :=
        if A.accept s.astar n then s.top_k_plans ++ [Cstar + n.g_pg] else s.top_k_plans }

/-- Modelled from the spec: control goes back to A* (sections 4.3 and 4.5). A*
runs until its next return; when it has found a shorter path to a state that
Dijkstra already refers to, Dijkstra's state is invalidated: the closed set and
the queue are reset, the enumeration starts again from the root `R`, and the
plans emitted so far stay in `top_k_plans`. -/
def Orchestration.resume {σ : Type} (A : AStarSide σ) (root : Nat) (s : Orchestration σ) :
    Orchestration σ :=
  let astar := A.run_astar s.astar
  if A.invalidated astar then
    { astar := astar, queue_djkstra := [⟨root, 0⟩], closed := [],
      top_k_plans := s.top_k_plans, pass_start := s.top_k_plans.length }
  else
    { s with astar := astar }

/-- Modelled from the spec: the orchestration loop of section 4.5, for at most
`fuel` iterations: stop when `k` plans are emitted or when the frontier is empty
and A* is exhausted; run A* while its open list is non-empty and
`C* + d > f_u` (an empty frontier counting as `d = ∞`); otherwise pop. -/
def Orchestration.run {σ : Type} (A : AStarSide σ) (Cstar : Int) (k : Nat) (root : Nat) :
    Nat → Orchestration σ → Orchestration σ
  | 0, s => s
  | fuel + 1, s =>
    if k ≤ s.top_k_plans.length then s
    else
      match extract_min s.queue_djkstra with
      | none =>
        if A.open_nonempty s.astar then
          Orchestration.run A Cstar k root fuel (Orchestration.resume A root s)
        else s
      | some (n, rest) =>
        if A.open_nonempty s.astar ∧ Cstar + n.g_pg > A.f_u s.astar then
          Orchestration.run A Cstar k root fuel (Orchestration.resume A root s)
        else
          Orchestration.run A Cstar k root fuel (Orchestration.pop A Cstar s n rest)

/-- The path graph of the test runs: the root (position 0) has a cross edge to
position 1 (δ = 2), which has the heap children 2 (δ = 3) and 3 (δ = 5);
position 2 has a cross edge back to position 1. -/
def demoGraph : PathGraph where
  delta := fun p => if p = 1 then 2 else if p = 2 then 3 else if p = 3 then 5 else 0
  children := fun p => if p = 1 then [2, 3] else []
  cross := fun p => if p = 0 then some 1 else if p = 2 then some 1 else none

/-- An A* side for test runs: A* is exhausted and the heaps never change. -/
def demoAStar : AStarSide Unit where
  open_nonempty := fun _ => false
  f_u := fun _ => 0
  run_astar := fun u => u
  invalidated := fun _ => false
  graph := fun _ => demoGraph
  accept := fun _ _ => true

/-- An A* side for test runs in which A* is resumed once: the state counts the
A* runs; the open list is non-empty before the first run, with `f_u = 12`, and
that run re-parents a state that Dijkstra refers to. -/
def resetAStar : AStarSide Nat where
  open_nonempty := fun w => decide (w = 0)
  f_u := fun _ => 12
  run_astar := fun w => w + 1
  invalidated := fun w => decide (w = 1)
  graph := fun _ => demoGraph
  accept := fun _ _ => true

end kstar

/-! ## `PatternGenerationHaslum` (pattern_generation_haslum.cc) -/

namespace pdbs

/-- A pattern: a `vector<int>` of variable ids. -/
abbrev Pattern := List Nat

/-- The class `PatternDatabase` as this file uses it: `get_pattern()` and
`get_size()`. -/
structure PatternDatabase where
  pattern : Pattern
  size : Int
  deriving DecidableEq, Repr

/-- The `double` option `max_time`: a number of seconds, or `infinity` (the
default). -/
inductive Duration where
  | seconds (q : Rat)
  | infinity
  deriving DecidableEq, Repr

/-- The comparison `max_time > 0`. -/
def Duration.is_positive : Duration → Bool
  | Duration.seconds q => decide (0 < q)
  | Duration.infinity => true

/-- The planning task behind `task_proxy`, as far as this file reads it. `S` is
the type of states. `pdb_size p` and `pdb_value p` are the size and the lookup
function of the `PatternDatabase` built for pattern `p`. -/
structure Task (S : Type) where
  goals : List (Nat × Nat)
  initial_state : S
  eff_to_pre : Nat → List Nat
  domain_size : Nat → Int
  pdb_size : Pattern → Int
  pdb_value : Pattern → S → Int

/-- The collaborators whose code is not in this file: the class
`CanonicalPDBsHeuristic` (objects of type `H`), the utility
`is_product_within_limit`, and what depends on the wall clock and on the random
number generator (a world of type `W`). `random_walk h n` is the sampling of one
state by the random walk of lines 127-160, and `solution_steps_estimate` is the
floating-point expression `int((h / average_operator_cost) + 0.5)`. -/
structure Collaborators (S H W : Type) where
  canonical_new : List Pattern → H
  is_dead_end : H → S → Bool
  compute_heuristic : H → S → Int
  get_size : H → Int
  get_pattern_databases : H → List PatternDatabase
  get_max_additive_subsets : H → Pattern → List (List PatternDatabase)
  add_pattern : H → Pattern → H
  dominance_pruning : H → H
  is_product_within_limit : Int → Int → Int → Bool
  start_timer : Duration → W → W
  timer_expired : W → Bool × W
  solution_steps_estimate : Int → Int
  random_walk : H → Int → W → S × W

/-- What a run does that is visible from outside the object; `evaluate i` is the
evaluation of candidate `i` on the samples in `find_best_improving_pdb` (lines
210-217). -/
inductive Event (S : Type) where
  | hill_climbing
  | new_pdb (pattern : Pattern)
  | sample (state : S)
  | evaluate (index : Nat)
  | add_pattern (pattern : Pattern)
  | dominance_pruning

/-- The members of a `PatternGenerationHaslum` object that the constructor's
initialiser list sets, and the world. -/
structure Members (W : Type) where
  pdb_max_size : Int
  collection_max_size : Int
  num_samples : Int
  min_improvement : Int
  max_time : Duration
  num_rejected : Int
  world : W

/-- The four limits that the plugin validates: `pdb_max_size`,
`collection_max_size`, `num_samples` and `min_improvement`. -/
def Members.limits {W : Type} (m : Members W) : Int × Int × Int × Int :=
  (m.pdb_max_size, m.collection_max_size, m.num_samples, m.min_improvement)

/-- A `PatternGenerationHaslum` object once `current_heuristic` points to a
heuristic, and the log of events so far. -/
structure PatternGenerationHaslum (S H W : Type) extends Members W where
  current_heuristic : H
  log : List (Event S)

/-- The merge loop of `std::set_difference`; `fuel` bounds the number of steps. -/
def set_difference_loop : Nat → List Nat → List Nat → List Nat
  | 0, _, _ => []
  | _ + 1, [], _ => []
  | _ + 1, a :: as, [] => a :: as
  | fuel + 1, a :: as, b :: bs =>
    if a < b then a :: set_difference_loop fuel as (b :: bs)
    else if b < a then set_difference_loop fuel (a :: as) bs
    else set_difference_loop fuel as bs

/-- The algorithm `std::set_difference` on two ranges. -/
def set_difference (first second : List Nat) : List Nat :=
  set_difference_loop (first.length + second.length) first second

/-- The algorithm `std::unique` followed by `erase`: of every run of equal
neighbours only the first is kept. -/
def unique : List Pattern → List Pattern
  | [] => []
  | [a] => [a]
  | a :: b :: l => if a = b then unique (b :: l) else a :: unique (b :: l)

/-- The result of a computation that is run with bounded fuel: a value, or
undefined behaviour of the source (a failed assertion), or fuel exhausted. -/
inductive Outcome (α : Type) where
  | done (a : α)
  | undefined
  | out_of_fuel

/-- Transfer of a result through a function. -/
def Outcome.map {α β : Type} (f : α → β) : Outcome α → Outcome β
  | Outcome.done a => Outcome.done (f a)
  | Outcome.undefined => Outcome.undefined
  | Outcome.out_of_fuel => Outcome.out_of_fuel

/-- The options of the `ipdb` plugin that this file reads. -/
structure IpdbOptions where
  pdb_max_size : Int
  collection_max_size : Int
  num_samples : Int
  min_improvement : Int
  max_time : Duration
  deriving DecidableEq, Repr

namespace PatternGenerationHaslum

variable {S H W : Type}

/-- The member function `generate_candidate_patterns`: returns the object (with
`num_rejected` updated) and the extended vector `candidate_patterns`. -/
def generate_candidate_patterns (T : Task S) (C : Collaborators S H W)
    (self : PatternGenerationHaslum S H W) (pdb : PatternDatabase)
    (candidate_patterns : List Pattern) : PatternGenerationHaslum S H W × List Pattern :=
  let pattern := pdb.pattern
  let pdb_size := pdb.size
  pattern.foldl
    (fun acc p =>
      let rel_vars := T.eff_to_pre p
      let relevant_vars := set_difference rel_vars pattern
      relevant_vars.foldl
        (fun acc rel_var_id =>
          let rel_var_size := T.domain_size rel_var_id
          if C.is_product_within_limit pdb_size rel_var_size acc.1.pdb_max_size then
            let new_pattern := (pattern ++ [rel_var_id]).insertionSort (· ≤ ·)
            (acc.1, acc.2 ++ [new_pattern])
          else
            ({ acc.1 with num_rejected := acc.1.num_rejected + 1 }, acc.2))
        acc)
    (self, candidate_patterns)

/-- The variables by which `generate_candidate_patterns` can extend a pattern,
in the order of its two loops: for every pattern variable `p`, the variables of
`eff_to_pre(p)` that are not in the pattern. -/
def extension_vars (T : Task S) (pattern : Pattern) : List Nat :=
  pattern.flatMap (fun p => (T.eff_to_pre p).filter (fun v => decide (v ∉ pattern)))

/-- The locals of `hill_climbing` that the helper functions update. -/
structure Candidates where
  generated_patterns : List Pattern
  candidate_pdbs : List (Option PatternDatabase)
  max_pdb_size : Int
  deriving DecidableEq, Repr

/-- The member function `generate_pdbs_for_candidates`: a PDB is created for
every new candidate that has not been generated before. The field
`max_pdb_size` of the result is the returned value. -/
def generate_pdbs_for_candidates (T : Task S) (self : PatternGenerationHaslum S H W)
    (generated_patterns : List Pattern) (new_candidates : List Pattern)
    (candidate_pdbs : List (Option PatternDatabase)) :
    PatternGenerationHaslum S H W × Candidates :=
  new_candidates.foldl
    (fun acc new_candidate =>
      if acc.2.generated_patterns.count new_candidate = 0 then
        let pdb : PatternDatabase := ⟨new_candidate, T.pdb_size new_candidate⟩
        ({ acc.1 with log := acc.1.log ++ [Event.new_pdb new_candidate] },
          { generated_patterns := acc.2.generated_patterns ++ [new_candidate],
            candidate_pdbs := acc.2.candidate_pdbs ++ [some pdb],
            max_pdb_size := max acc.2.max_pdb_size pdb.size })
      else acc)
    (self, { generated_patterns := generated_patterns, candidate_pdbs := candidate_pdbs,
             max_pdb_size := 0 })

/-- The `for` loop of `sample_states`, with `remaining` iterations to go; `none`
stands for the exception `HillClimbingTimeout`. -/
def sample_loop (C : Collaborators S H W) (n : Int) :
    Nat → PatternGenerationHaslum S H W → List S →
      PatternGenerationHaslum S H W × Option (List S)
  | 0, self, samples => (self, some samples)
  | remaining + 1, self, samples =>
    let t := C.timer_expired self.world
    if t.1 then
      ({ self with world := t.2 }, none)
    else
      let w := C.random_walk self.current_heuristic n t.2
      sample_loop C n remaining
        { self with world := w.2, log := self.log ++ [Event.sample w.1] } (samples ++ [w.1])

/-- The member function `sample_states`; `none` stands for the exception
`HillClimbingTimeout`. -/
def sample_states (T : Task S) (C : Collaborators S H W)
    (self : PatternGenerationHaslum S H W) (samples : List S) :
    PatternGenerationHaslum S H W × Option (List S) :=
  let h := C.compute_heuristic self.current_heuristic T.initial_state
  let n : Int := if h = 0 then 10 else 4 * C.solution_steps_estimate h
  sample_loop C n self.num_samples.toNat self samples

/-- The member function `is_heuristic_improved`. -/
def is_heuristic_improved (T : Task S) (C : Collaborators S H W)
    (self : PatternGenerationHaslum S H W) (pdb : PatternDatabase) (sample : S)
    (max_additive_subsets : List (List PatternDatabase)) : Bool :=
  let h_pattern := T.pdb_value pdb.pattern sample
  if h_pattern = INT_MAX then
    true
  else
    let h_collection := C.compute_heuristic self.current_heuristic sample
    max_additive_subsets.any
      (fun subset =>
        let h_subset := (subset.map (fun additive_pdb => T.pdb_value additive_pdb.pattern sample)).sum
        decide (h_pattern + h_subset > h_collection))

/-- The state of the loop of `find_best_improving_pdb`. -/
structure BestSoFar where
  improvement : Int
  best_pdb_index : Int
  candidate_pdbs : List (Option PatternDatabase)
  deriving DecidableEq, Repr

/-- The `for` loop of `find_best_improving_pdb` over the indices `i`, from the
list `todo`. The last component of the result tells whether the loop was left by
the exception `HillClimbingTimeout`. The local `combined_size` is an `int`: it
holds the sum of the two sizes reduced to 32 bits. -/
def find_best_loop (T : Task S) (C : Collaborators S H W) (samples : List S) :
    List Nat → PatternGenerationHaslum S H W → BestSoFar →
      PatternGenerationHaslum S H W × BestSoFar × Bool
  | [], self, best => (self, best, false)
  | i :: todo, self, best =>
    let t := C.timer_expired self.world
    let self := { self with world := t.2 }
    if t.1 then
      (self, best, true)
    else
      match best.candidate_pdbs.getD i none with
      | none => find_best_loop T C samples todo self best
      | some pdb =>
        let combined_size := wrapInt32 (C.get_size self.current_heuristic + pdb.size)
        if combined_size > self.collection_max_size then
          find_best_loop T C samples todo self
            { best with candidate_pdbs := best.candidate_pdbs.set i none }
        else
          let self := { self with log := self.log ++ [Event.evaluate i] }
          let max_additive_subsets :=
            C.get_max_additive_subsets self.current_heuristic pdb.pattern
          let count : Int :=
            (samples.filter
              (fun sample => is_heuristic_improved T C self pdb sample max_additive_subsets)).length
          if count > best.improvement then
            find_best_loop T C samples todo self
              { best with improvement := count, best_pdb_index := i }
          else
            find_best_loop T C samples todo self best

/-- The member function `find_best_improving_pdb`: the object, the vector
`candidate_pdbs` as the call leaves it, and the returned pair
`(improvement, best_pdb_index)`, or `none` for the exception
`HillClimbingTimeout`. -/
def find_best_improving_pdb (T : Task S) (C : Collaborators S H W)
    (self : PatternGenerationHaslum S H W) (samples : List S)
    (candidate_pdbs : List (Option PatternDatabase)) :
    PatternGenerationHaslum S H W × List (Option PatternDatabase) × Option (Int × Int) :=
  let r := find_best_loop T C samples (List.range candidate_pdbs.length) self
    { improvement := 0, best_pdb_index := -1, candidate_pdbs := candidate_pdbs }
  (r.1, r.2.1.candidate_pdbs,
    if r.2.2 then none else some (r.2.1.improvement, r.2.1.best_pdb_index))

/-- The test of lines 193-194 passes: `combined_size`, the `int` that holds the
candidate's size added to the size of the current collection, does not exceed
`collection_max_size`. -/
def fits_collection (C : Collaborators S H W) (self : PatternGenerationHaslum S H W)
    (pdb : PatternDatabase) : Bool :=
  decide (¬ (wrapInt32 (C.get_size self.current_heuristic + pdb.size) >
    self.collection_max_size))

/-- The counting approximation of lines 210-217: the number of samples on which
`is_heuristic_improved` holds for the candidate. -/
def improvement_count (T : Task S) (C : Collaborators S H W)
    (self : PatternGenerationHaslum S H W) (samples : List S) (pdb : PatternDatabase) : Int :=
  (samples.filter
    (fun sample => is_heuristic_improved T C self pdb sample
      (C.get_max_additive_subsets self.current_heuristic pdb.pattern))).length

/-- One pass through the body of the loop of `find_best_improving_pdb` for
index `i`, after the timer check (lines 182-225). -/
def find_best_visit (T : Task S) (C : Collaborators S H W) (samples : List S) (i : Nat)
    (self : PatternGenerationHaslum S H W) (best : BestSoFar) :
    PatternGenerationHaslum S H W × BestSoFar :=
  match best.candidate_pdbs.getD i none with
  | none => (self, best)
  | some pdb =>
    if fits_collection C self pdb then
      let self := { self with log := self.log ++ [Event.evaluate i] }
      let count := improvement_count T C self samples pdb
      if count > best.improvement then
        (self, { best with improvement := count, best_pdb_index := i })
      else
        (self, best)
    else
      (self, { best with candidate_pdbs := best.candidate_pdbs.set i none })

/-- The locals of `hill_climbing`. -/
structure Locals where
  generated_patterns : List Pattern
  new_candidates : List Pattern
  candidate_pdbs : List (Option PatternDatabase)
  num_iterations : Int
  max_pdb_size : Int
  deriving DecidableEq, Repr

/-- The element `candidate_pdbs[best_pdb_index]`, when it exists and is not null. -/
def best_candidate (candidate_pdbs : List (Option PatternDatabase)) (best_pdb_index : Int) :
    Option PatternDatabase :=
  if best_pdb_index < 0 then none else candidate_pdbs.getD best_pdb_index.toNat none

/-- The `while (true)` loop of `hill_climbing` inside its `try` block, for at
most `fuel` iterations. The loop is left by `break` (dead end, or improvement
below the threshold) or by the exception `HillClimbingTimeout`, which the
`catch` clause absorbs; in each case the object and the locals are returned. -/
def hill_climbing_loop (T : Task S) (C : Collaborators S H W) :
    Nat → PatternGenerationHaslum S H W → Locals →
      Outcome (PatternGenerationHaslum S H W × Locals)
  | 0, _, _ => Outcome.out_of_fuel
  | fuel + 1, self, L =>
    let L := { L with num_iterations := L.num_iterations + 1 }
    if C.is_dead_end self.current_heuristic T.initial_state then
      Outcome.done (self, L)
    else
      let g := generate_pdbs_for_candidates T self L.generated_patterns L.new_candidates
        L.candidate_pdbs
      let self := g.1
      let L := { L with generated_patterns := g.2.generated_patterns,
                        candidate_pdbs := g.2.candidate_pdbs,
                        max_pdb_size := max L.max_pdb_size g.2.max_pdb_size }
      let sampled := sample_states T C self []
      let self := sampled.1
      match sampled.2 with
      | none => Outcome.done (self, L)
      | some samples =>
        let found := find_best_improving_pdb T C self samples L.candidate_pdbs
        let self := found.1
        let L := { L with candidate_pdbs := found.2.1 }
        match found.2.2 with
        | none => Outcome.done (self, L)
        | some (improvement, best_pdb_index) =>
          if improvement < self.min_improvement then
            Outcome.done (self, L)
          else
            match best_candidate L.candidate_pdbs best_pdb_index with
            | none => Outcome.undefined
            | some best_pdb =>
              let best_pattern := best_pdb.pattern
              let self := { self with
                current_heuristic := C.add_pattern self.current_heuristic best_pattern,
                log := self.log ++ [Event.add_pattern best_pattern] }
              let next := generate_candidate_patterns T C self best_pdb []
              hill_climbing_loop T C fuel next.1
                { L with new_candidates := next.2,
                         candidate_pdbs := L.candidate_pdbs.set best_pdb_index.toNat none }

/-- The first part of one pass through the body of the `while` loop of
`hill_climbing` (lines 284-306): the object and the locals as this part leaves
them, and, when the pass gets as far as the threshold test (no dead end, no
`HillClimbingTimeout`), the samples and the pair `(improvement, best_pdb_index)`
returned by `find_best_improving_pdb`. -/
def hill_climbing_selection (T : Task S) (C : Collaborators S H W)
    (self : PatternGenerationHaslum S H W) (L : Locals) :
    PatternGenerationHaslum S H W × Locals × Option (List S × Int × Int) :=
  let L := { L with num_iterations := L.num_iterations + 1 }
  if C.is_dead_end self.current_heuristic T.initial_state then
    (self, L, none)
  else
    let g := generate_pdbs_for_candidates T self L.generated_patterns L.new_candidates
      L.candidate_pdbs
    let self := g.1
    let L := { L with generated_patterns := g.2.generated_patterns,
                      candidate_pdbs := g.2.candidate_pdbs,
                      max_pdb_size := max L.max_pdb_size g.2.max_pdb_size }
    let sampled := sample_states T C self []
    let self := sampled.1
    match sampled.2 with
    | none => (self, L, none)
    | some samples =>
      let found := find_best_improving_pdb T C self samples L.candidate_pdbs
      let self := found.1
      let L := { L with candidate_pdbs := found.2.1 }
      match found.2.2 with
      | none => (self, L, none)
      | some (improvement, best_pdb_index) => (self, L, some (samples, improvement, best_pdb_index))

/-- How one pass through the body of the `while` loop of `hill_climbing` ends:
the loop is left (by `break` or by `HillClimbingTimeout`), or the pattern of
`best_pdb` has been added and the loop goes on, or the behaviour is undefined
(the assertion of line 315 fails). -/
inductive Iteration (S H W : Type) where
  | stopped (self : PatternGenerationHaslum S H W) (L : Locals)
  | added (best_pdb : PatternDatabase) (self : PatternGenerationHaslum S H W) (L : Locals)
  | undefined

/-- One pass through the body of the `while` loop of `hill_climbing` (lines
284-333). -/
def hill_climbing_iteration (T : Task S) (C : Collaborators S H W)
    (self : PatternGenerationHaslum S H W) (L : Locals) : Iteration S H W :=
  let sel := hill_climbing_selection T C self L
  let self := sel.1
  let L := sel.2.1
  match sel.2.2 with
  | none => Iteration.stopped self L
  | some (_, improvement, best_pdb_index) =>
    if improvement < self.min_improvement then
      Iteration.stopped self L
    else
      match best_candidate L.candidate_pdbs best_pdb_index with
      | none => Iteration.undefined
      | some best_pdb =>
        let best_pattern := best_pdb.pattern
        let self := { self with
          current_heuristic := C.add_pattern self.current_heuristic best_pattern,
          log := self.log ++ [Event.add_pattern best_pattern] }
        let next := generate_candidate_patterns T C self best_pdb []
        Iteration.added best_pdb next.1
          { L with new_candidates := next.2,
                   candidate_pdbs := L.candidate_pdbs.set best_pdb_index.toNat none }

/-- The member function `hill_climbing`: the timer is started, the loop runs,
and the collection is pruned. Returns the object and `initial_candidate_patterns`
as the call leaves it. -/
def hill_climbing (T : Task S) (C : Collaborators S H W) (fuel : Nat)
    (self : PatternGenerationHaslum S H W) (initial_candidate_patterns : List Pattern) :
    Outcome (PatternGenerationHaslum S H W × List Pattern) :=
  let self := { self with world := C.start_timer self.max_time self.world,
                          log := self.log ++ [Event.hill_climbing] }
  (hill_climbing_loop T C fuel self
      { generated_patterns := [], new_candidates := initial_candidate_patterns,
        candidate_pdbs := [], num_iterations := 0, max_pdb_size := 0 }).map
    (fun r =>
      ({ r.1 with current_heuristic := C.dominance_pruning r.1.current_heuristic,
                  log := r.1.log ++ [Event.dominance_pruning] }, r.2.new_candidates))

/-- The initial pattern collection of the member function `initialize`: a
vector of length one holding the variable of each goal fact, in the order of the
goals (lines 372-376). -/
def initial_pattern_collection (T : Task S) : List Pattern :=
  T.goals.map (fun goal => List.replicate 1 goal.1)

/-- The member function `initialize` (lines 362-407), for an object whose
members are `m`. The average operator cost of lines 364-369 is a `double` that
only `sample_states` reads; it is part of `C.solution_steps_estimate`. -/
def initialize_pgh (T : Task S) (C : Collaborators S H W) (fuel : Nat) (m : Members W) :
    Outcome (PatternGenerationHaslum S H W) :=
  let self : PatternGenerationHaslum S H W :=
    { toMembers := m,
      current_heuristic := C.canonical_new (initial_pattern_collection T),
      log := [] }
  let initial_state := T.initial_state
  if C.is_dead_end self.current_heuristic initial_state then
    Outcome.done self
  else
    let generated := (C.get_pattern_databases self.current_heuristic).foldl
      (fun acc current_pdb => generate_candidate_patterns T C acc.1 current_pdb acc.2)
      (self, [])
    let self := generated.1
    let initial_candidate_patterns := unique (generated.2.insertionSort (· ≤ ·))
    if self.max_time.is_positive then
      (hill_climbing T C fuel self initial_candidate_patterns).map (fun r => r.1)
    else
      Outcome.done self

/-- The constructor `PatternGenerationHaslum::PatternGenerationHaslum`: the
members are read from the options, `num_rejected` is 0, and `initialize()` is
called. -/
def construct (T : Task S) (C : Collaborators S H W) (fuel : Nat) (opts : IpdbOptions)
    (world : W) : Outcome (PatternGenerationHaslum S H W) :=
  initialize_pgh T C fuel
    { pdb_max_size := opts.pdb_max_size,
      collection_max_size := opts.collection_max_size,
      num_samples := opts.num_samples,
      min_improvement := opts.min_improvement,
      max_time := opts.max_time,
      num_rejected := 0,
      world := world }

end PatternGenerationHaslum

/-- The `OptionParser` as the `ipdb` plugin's `_parse` uses it: the options
returned by `parser.parse()`, and the answers of `help_mode()` and `dry_run()`. -/
structure OptionParser where
  parsed : IpdbOptions
  help_mode : Bool
  dry_run : Bool
  deriving DecidableEq, Repr

/-- The function `_parse` of pattern_generation_haslum.cc from `parser.parse()`
on (lines 516-534). `parser.error` does not return (it throws), which is
`Except.error` here; `none` is the returned null pointer; otherwise the result
is the object `pgh` that is constructed. -/
def _parse {S H W : Type} (T : Task S) (C : Collaborators S H W) (fuel : Nat) (world : W)
    (parser : OptionParser) :
    Except String (Option (Outcome (PatternGenerationHaslum S H W))) :=
  let opts := parser.parsed
  if parser.help_mode then
    Except.ok none
  else if opts.pdb_max_size < 1 then
    Except.error "size per pdb must be at least 1"
  else if opts.collection_max_size < 1 then
    Except.error "total pdb collection size must be at least 1"
  else if opts.min_improvement < 1 then
    Except.error "minimum improvement must be at least 1"
  else if opts.min_improvement > opts.num_samples then
    Except.error "minimum improvement must not be higher than number of samples"
  else if parser.dry_run then
    Except.ok none
  else
    Except.ok (some (PatternGenerationHaslum.construct T C fuel opts world))

end pdbs

/-! ### A small concrete task for test runs -/

namespace pdbs

/-- A task with three binary variables and the goal facts `(0, 1)` and `(2, 0)`;
variable 0 depends on variable 1 and variable 2 on variables 0 and 1. States are
numbers; the PDB of a pattern has `2 ^ length` entries and maps a state to the
state's number if the pattern has more than one variable and to 0 otherwise. -/
def demoTask : Task Nat where
  goals := [(0, 1), (2, 0)]
  initial_state := 0
  eff_to_pre := fun v => if v = 0 then [1] else if v = 2 then [0, 1] else []
  domain_size := fun _ => 2
  pdb_size := fun p => 2 ^ p.length
  pdb_value := fun p s => if 1 < p.length then s else 0

/-- Collaborators for test runs: a heuristic is the list of its patterns, its
value is 0, its size the sum of the PDB sizes; `add_pattern` appends and
`dominance_pruning` changes nothing; a product is within the limit if it is at
most the limit; the world is a counter, the timer never expires, and the
random walk returns the counter's value. -/
def demoCollaborators : Collaborators Nat (List Pattern) Nat where
  canonical_new := fun ps => ps
  is_dead_end := fun _ _ => false
  compute_heuristic := fun _ _ => 0
  get_size := fun h => (h.map (fun p => (2 : Int) ^ p.length)).sum
  get_pattern_databases := fun h => h.map (fun p => ⟨p, 2 ^ p.length⟩)
  get_max_additive_subsets := fun _ _ => [[]]
  add_pattern := fun h p => h ++ [p]
  dominance_pruning := fun h => h
  is_product_within_limit := fun a b l => decide (a * b ≤ l)
  start_timer := fun _ w => w
  timer_expired := fun w => (false, w)
  solution_steps_estimate := fun h => h
  random_walk := fun _ _ w => (w, w + 1)

/-- Options for test runs. -/
def demoOptions (max_time : Duration) : IpdbOptions where
  pdb_max_size := 4
  collection_max_size := 20
  num_samples := 3
  min_improvement := 2
  max_time := max_time

/-- The members that the constructor sets from `demoOptions`. -/
def demoMembers (max_time : Duration) : Members Nat where
  pdb_max_size := 4
  collection_max_size := 20
  num_samples := 3
  min_improvement := 2
  max_time := max_time
  num_rejected := 0
  world := 0

end pdbs

namespace pdbs

/-- An object for test runs: the members of `demoMembers`, the collection of the
two goal singletons, an empty log. -/
def demoObject : PatternGenerationHaslum Nat (List Pattern) Nat where
  toMembers := demoMembers Duration.infinity
  current_heuristic := [[0], [2]]
  log := []

/-- A vector of candidates for test runs: a null entry, and a PDB of size 40 that
does not fit into the collection limit 20. -/
def demoCandidates : List (Option PatternDatabase) :=
  [some ⟨[0, 1], 4⟩, none, some ⟨[0, 2], 40⟩, some ⟨[1, 2], 4⟩]

/-- Locals of `hill_climbing` for test runs: the first iteration, with three
candidate patterns. -/
def demoLocals : PatternGenerationHaslum.Locals where
  generated_patterns := []
  new_candidates := [[0, 1], [0, 2], [1, 2]]
  candidate_pdbs := []
  num_iterations := 0
  max_pdb_size := 0

/-- Samples for test runs. -/
def demoSamples : List Nat := [0, 1, 2]

/-- Collaborators whose timer runs out: `demoCollaborators` with a timer that
counts its checks in the world and reports expiry from the third check on. -/
def expiringCollaborators : Collaborators Nat (List Pattern) Nat :=
  { demoCollaborators with timer_expired := fun w => (decide (2 ≤ w), w + 1) }

/-- Collaborators with a large collection: `demoCollaborators` with a collection
of 1500000000 abstract states. -/
def largeCollaborators : Collaborators Nat (List Pattern) Nat :=
  { demoCollaborators with get_size := fun _ => 1500000000 }

/-- The object `demoObject` with the collection limit 2000000000. -/
def largeObject : PatternGenerationHaslum Nat (List Pattern) Nat :=
  { demoObject with collection_max_size := 2000000000 }

/-- A vector with one candidate, a PDB of 1500000000 abstract states. -/
def largeCandidates : List (Option PatternDatabase) :=
  [some ⟨[0, 1], 1500000000⟩]

end pdbs

namespace pdbs

/-- A parser state for test runs: `min_improvement` (5) exceeds `num_samples`
(3); neither help mode nor dry run. -/
def demoParser : OptionParser where
  parsed :=
    { pdb_max_size := 4, collection_max_size := 20, num_samples := 3, min_improvement := 5,
      max_time := Duration.seconds 0 }
  help_mode := false
  dry_run := false

end pdbs

/-! # Theorems -/

/-! ## Basic facts about `wrapInt32` -/

theorem wrapInt32_of_inInt32 (x : Int) (h : inInt32 x) : wrapInt32 x = x := by
  unfold inInt32 INT_MIN INT_MAX at h
  unfold wrapInt32
  omega

/-! ## The interrupt gate -/

namespace top_k_eager_search

namespace SearchControl

theorem check_interrupt_eq (sc : SearchControl) :
    sc.check_interrupt =
      (sc.interrupt_immediatly ||
        decide (wrapInt32 (sc.optimal_solution_cost + sc.d) ≤ sc.f_u)) := by
  unfold check_interrupt
  split <;> simp_all

/-- C1. Whenever `optimal_solution_cost + d` does not overflow,
`check_interrupt()` returns true exactly when `interrupt_immediatly` is set or
`optimal_solution_cost + d <= f_u`; with `interrupt_immediatly` unset it returns
false exactly when `optimal_solution_cost + d > f_u`. -/
theorem check_interrupt_iff_gate (sc : SearchControl)
    (hsum : inInt32 (sc.optimal_solution_cost + sc.d)) :
    (sc.check_interrupt = true ↔
        (sc.interrupt_immediatly = true ∨ sc.optimal_solution_cost + sc.d ≤ sc.f_u)) ∧
      (sc.interrupt_immediatly = false →
        (sc.check_interrupt = false ↔ sc.optimal_solution_cost + sc.d > sc.f_u)) := by
  rw [check_interrupt_eq, wrapInt32_of_inInt32 _ hsum]
  constructor
  · simp
  · intro h
    simp [h]

theorem check_interrupt_iff_gate_witness :
    inInt32 ((7 : Int) + 3) ∧
      (((⟨false, 7, 3, 12⟩ : SearchControl).check_interrupt = true ↔
          ((⟨false, 7, 3, 12⟩ : SearchControl).interrupt_immediatly = true ∨
            (⟨false, 7, 3, 12⟩ : SearchControl).optimal_solution_cost +
              (⟨false, 7, 3, 12⟩ : SearchControl).d ≤ (⟨false, 7, 3, 12⟩ : SearchControl).f_u)) ∧
        ((⟨false, 7, 3, 12⟩ : SearchControl).interrupt_immediatly = false →
          ((⟨false, 7, 3, 12⟩ : SearchControl).check_interrupt = false ↔
            (⟨false, 7, 3, 12⟩ : SearchControl).optimal_solution_cost +
              (⟨false, 7, 3, 12⟩ : SearchControl).d > (⟨false, 7, 3, 12⟩ : SearchControl).f_u))) :=
  ⟨by decide, check_interrupt_iff_gate ⟨false, 7, 3, 12⟩ (by decide)⟩

/-- C2 (as stated, refuted). With `interrupt_immediatly` set, `check_interrupt()`
returns true although `f_u < optimal_solution_cost + d`. -/
theorem check_interrupt_immediate_counterexample :
    (⟨true, 10, 5, 0⟩ : SearchControl).check_interrupt = true ∧
      ¬ ((⟨true, 10, 5, 0⟩ : SearchControl).f_u ≥
          (⟨true, 10, 5, 0⟩ : SearchControl).optimal_solution_cost +
            (⟨true, 10, 5, 0⟩ : SearchControl).d) := by
  decide

/-- C2 (amended). With `interrupt_immediatly` unset, `check_interrupt()` returns
true only when `f_u >= optimal_solution_cost + d`, the sum being the `int` sum
of the code, which is the mathematical sum whenever that does not overflow;
with `interrupt_immediatly` set it returns true whatever the costs are. -/
theorem check_interrupt_sound (sc : SearchControl) :
    (sc.interrupt_immediatly = false → sc.check_interrupt = true →
        sc.f_u ≥ wrapInt32 (sc.optimal_solution_cost + sc.d) ∧
          (inInt32 (sc.optimal_solution_cost + sc.d) →
            sc.f_u ≥ sc.optimal_solution_cost + sc.d)) ∧
      (sc.interrupt_immediatly = true → sc.check_interrupt = true) := by
  constructor
  · intro hflag hret
    rw [check_interrupt_eq, hflag] at hret
    have h : wrapInt32 (sc.optimal_solution_cost + sc.d) ≤ sc.f_u := by simpa using hret
    refine ⟨h, fun hsum => ?_⟩
    rw [wrapInt32_of_inInt32 _ hsum] at h
    exact h
  · intro hflag
    rw [check_interrupt_eq, hflag]
    rfl

theorem check_interrupt_sound_witness :
    (⟨false, 7, 3, 12⟩ : SearchControl).f_u ≥
        wrapInt32 ((⟨false, 7, 3, 12⟩ : SearchControl).optimal_solution_cost +
          (⟨false, 7, 3, 12⟩ : SearchControl).d) ∧
      (inInt32 ((⟨false, 7, 3, 12⟩ : SearchControl).optimal_solution_cost +
          (⟨false, 7, 3, 12⟩ : SearchControl).d) →
        (⟨false, 7, 3, 12⟩ : SearchControl).f_u ≥
          (⟨false, 7, 3, 12⟩ : SearchControl).optimal_solution_cost +
            (⟨false, 7, 3, 12⟩ : SearchControl).d) :=
  (check_interrupt_sound ⟨false, 7, 3, 12⟩).1 rfl (by decide)

/-- C5. With `interrupt_immediatly` unset and no overflow, `check_interrupt` is
antitone in `d` and monotone in `f_u`: for `d_lo <= d_hi` and `f_lo <= f_hi`, a
true answer at `(d_hi, f_lo)` gives a true answer at `(d_lo, f_hi)`, and a false
answer at `(d_lo, f_hi)` gives a false answer at `(d_hi, f_lo)`; in particular
raising `d` alone never turns a false answer into a true one. -/
theorem check_interrupt_monotone (c d_lo d_hi f_lo f_hi : Int)
    (hlo : inInt32 (c + d_lo)) (hhi : inInt32 (c + d_hi))
    (hd : d_lo ≤ d_hi) (hf : f_lo ≤ f_hi) :
    ((⟨false, c, d_hi, f_lo⟩ : SearchControl).check_interrupt = true →
        (⟨false, c, d_lo, f_hi⟩ : SearchControl).check_interrupt = true) ∧
      ((⟨false, c, d_lo, f_hi⟩ : SearchControl).check_interrupt = false →
        (⟨false, c, d_hi, f_lo⟩ : SearchControl).check_interrupt = false) ∧
      ((⟨false, c, d_lo, f_lo⟩ : SearchControl).check_interrupt = false →
        (⟨false, c, d_hi, f_lo⟩ : SearchControl).check_interrupt = false) := by
  simp only [check_interrupt_eq, wrapInt32_of_inInt32 _ hlo, wrapInt32_of_inInt32 _ hhi,
    Bool.false_or, decide_eq_true_eq, decide_eq_false_iff_not, not_le]
  refine ⟨fun h => ?_, fun h => ?_, fun h => ?_⟩ <;> omega

theorem check_interrupt_monotone_witness :
    ((⟨false, 7, 5, 12⟩ : SearchControl).check_interrupt = true →
        (⟨false, 7, 3, 15⟩ : SearchControl).check_interrupt = true) ∧
      ((⟨false, 7, 3, 15⟩ : SearchControl).check_interrupt = false →
        (⟨false, 7, 5, 12⟩ : SearchControl).check_interrupt = false) ∧
      ((⟨false, 7, 3, 12⟩ : SearchControl).check_interrupt = false →
        (⟨false, 7, 5, 12⟩ : SearchControl).check_interrupt = false) :=
  check_interrupt_monotone 7 3 5 12 15 (by decide) (by decide) (by decide) (by decide)

/-- C15 (as stated, refuted). With `optimal_solution_cost = INT_MAX` and
`interrupt_immediatly` unset, `check_interrupt()` returns true for `d = -1` and
`f_u = INT_MAX`, and (the sum wrapping to `INT_MIN`) for `d = 1` and `f_u = 0`. -/
theorem check_interrupt_initial_cost_counterexample :
    (⟨false, INT_MAX, -1, INT_MAX⟩ : SearchControl).check_interrupt = true ∧
      (⟨false, INT_MAX, 1, 0⟩ : SearchControl).check_interrupt = true ∧
      wrapInt32 (INT_MAX + 1) = INT_MIN := by
  decide

/-- C15 (amended). With `optimal_solution_cost = INT_MAX` and
`interrupt_immediatly` unset, for `d = -1` or `d = 0` (the values for which
`INT_MAX + d` does not overflow) `check_interrupt()` returns false exactly when
`f_u < INT_MAX + d`; in particular it returns false for the initial `d = -1`
and every `f_u < INT_MAX - 1`. -/
theorem check_interrupt_initial_cost (d f_u : Int) (hlo : -1 ≤ d) (hhi : d ≤ 0) :
    ((⟨false, INT_MAX, d, f_u⟩ : SearchControl).check_interrupt = false ↔
        f_u < INT_MAX + d) ∧
      (f_u < INT_MAX - 1 →
        (⟨false, INT_MAX, d, f_u⟩ : SearchControl).check_interrupt = false) := by
  have hsum : inInt32 (INT_MAX + d) := by
    unfold inInt32 INT_MIN INT_MAX
    omega
  have hiff : (⟨false, INT_MAX, d, f_u⟩ : SearchControl).check_interrupt = false ↔
      f_u < INT_MAX + d := by
    rw [check_interrupt_eq]
    simp only [Bool.false_or, decide_eq_false_iff_not, not_le]
    rw [wrapInt32_of_inInt32 _ hsum]
  refine ⟨hiff, fun h => hiff.2 ?_⟩
  unfold INT_MAX at h ⊢
  omega

theorem check_interrupt_initial_cost_witness :
    ((⟨false, INT_MAX, -1, -1⟩ : SearchControl).check_interrupt = false ↔
        (-1 : Int) < INT_MAX + -1) ∧
      ((-1 : Int) < INT_MAX - 1 →
        (⟨false, INT_MAX, -1, -1⟩ : SearchControl).check_interrupt = false) :=
  check_interrupt_initial_cost (-1) (-1) (by decide) (by decide)

end SearchControl

end top_k_eager_search

/-! ## The loop of `KStar::search` -/

namespace kstar

open SearchStatus

/-- The three ways in which one pass through the loop body can go. -/
theorem KStar.search_body_cases {σ : Type} (E : BaseEngine σ) (k : KStar σ) :
    ((KStar.search_body E k).2.2 = true ∧
        (KStar.search_body E k).1.status = TIMEOUT ∧
        (KStar.search_body E k).1.first_solution_found = k.first_solution_found ∧
        ∃ s, (KStar.search_body E k).2.1 =
          [⟨Call.step s, k.first_solution_found⟩,
            ⟨Call.is_expired true, k.first_solution_found⟩]) ∨
      ((KStar.search_body E k).2.2 = false ∧ k.first_solution_found = false ∧
        (KStar.search_body E k).1.first_solution_found = true ∧
        ∃ tail, (KStar.search_body E k).2.1 =
            [⟨Call.step SOLVED, false⟩, ⟨Call.is_expired false, false⟩,
              ⟨Call.interrupt, false⟩] ++ tail ∧
          (tail = [] ∨ tail = [⟨Call.resume, true⟩])) ∨
      ((KStar.search_body E k).2.2 = false ∧
        (KStar.search_body E k).1.first_solution_found = k.first_solution_found ∧
        ∃ s tail, ¬ (s = SOLVED ∧ k.first_solution_found = false) ∧
          (KStar.search_body E k).2.1 =
            [⟨Call.step s, k.first_solution_found⟩,
              ⟨Call.is_expired false, k.first_solution_found⟩] ++ tail ∧
          (tail = [] ∨ tail = [⟨Call.resume, k.first_solution_found⟩])) := by
  unfold KStar.search_body
  by_cases hexp : (E.is_expired (E.step k.status k.base).2).1 = true
  · left
    simp [hexp]
  · right
    simp only [hexp]
    by_cases hsol : (E.step k.status k.base).1 = SOLVED ∧ k.first_solution_found = false
    · left
      obtain ⟨h1, h2⟩ := hsol
      simp only [h1, h2, and_self, if_true]
      by_cases hint : (E.interrupt SOLVED (E.is_expired (E.step k.status k.base).2).2).1
          = INTERRUPTED
      · simp [hint]
      · simp [hint]
    · right
      simp only [hsol, if_false]
      by_cases hint : (E.step k.status k.base).1 = INTERRUPTED
      · refine ⟨by simp, by simp [hint], (E.step k.status k.base).1, ?_⟩
        simp [hint]
      · refine ⟨by simp, by simp [hint], (E.step k.status k.base).1, ?_⟩
        simp [hint]
        simpa using hsol

/-- The calls of one pass through the loop body: `step`, the timer check, and
then, only if the timer has not expired, possibly `interrupt` and `resume`. -/
theorem KStar.search_body_calls {σ : Type} (E : BaseEngine σ) (k : KStar σ) :
    ∃ s e rest, calls (KStar.search_body E k).2.1 = Call.step s :: Call.is_expired e :: rest ∧
      (∀ c ∈ rest, c = Call.interrupt ∨ c = Call.resume) ∧
      (KStar.search_body E k).2.2 = e ∧
      (e = true → rest = [] ∧ (KStar.search_body E k).1.status = TIMEOUT) := by
  rcases KStar.search_body_cases E k with
    ⟨hb, hst, -, s, hlog⟩ | ⟨hb, -, -, tail, hlog, htail⟩ | ⟨hb, -, s, tail, -, hlog, htail⟩
  · exact ⟨s, true, [], by simp [calls, hlog], by simp, hb, fun _ => ⟨rfl, hst⟩⟩
  · rcases htail with rfl | rfl
    · exact ⟨SOLVED, false, [Call.interrupt], by simp [calls, hlog], by simp, hb, by simp⟩
    · exact ⟨SOLVED, false, [Call.interrupt, Call.resume], by simp [calls, hlog], by simp, hb,
        by simp⟩
  · rcases htail with rfl | rfl
    · exact ⟨s, false, [], by simp [calls, hlog], by simp, hb, by simp⟩
    · exact ⟨s, false, [Call.resume], by simp [calls, hlog], by simp, hb, by simp⟩

theorem step_then_timer_append (a b : List Call)
    (ha : ∀ i s, a[i]? = some (Call.step s) → ∃ e, a[i + 1]? = some (Call.is_expired e))
    (hb : ∀ i s, b[i]? = some (Call.step s) → ∃ e, b[i + 1]? = some (Call.is_expired e)) :
    ∀ i s, (a ++ b)[i]? = some (Call.step s) →
      ∃ e, (a ++ b)[i + 1]? = some (Call.is_expired e) := by
  intro i s h
  by_cases hi : i < a.length
  · rw [List.getElem?_append_left hi] at h
    obtain ⟨e, he⟩ := ha i s h
    have hlt : i + 1 < a.length := by
      by_contra hc
      rw [List.getElem?_eq_none (by omega)] at he
      cases he
    exact ⟨e, by rw [List.getElem?_append_left hlt]; exact he⟩
  · have hi' : a.length ≤ i := by omega
    rw [List.getElem?_append_right hi'] at h
    obtain ⟨e, he⟩ := hb _ s h
    refine ⟨e, ?_⟩
    rw [List.getElem?_append_right (by omega)]
    have hidx : i + 1 - a.length = i - a.length + 1 := by omega
    rw [hidx]
    exact he

theorem step_then_timer_body (s : SearchStatus) (e : Bool) (rest : List Call)
    (hrest : ∀ c ∈ rest, c = Call.interrupt ∨ c = Call.resume) :
    ∀ i t, (Call.step s :: Call.is_expired e :: rest)[i]? = some (Call.step t) →
      ∃ e', (Call.step s :: Call.is_expired e :: rest)[i + 1]? = some (Call.is_expired e') := by
  intro i t h
  rcases i with _ | _ | i
  · exact ⟨e, by simp⟩
  · simp at h
  · simp only [List.getElem?_cons_succ] at h
    have hmem := List.getElem?_mem h
    rcases hrest _ hmem with h' | h' <;> cases h'

theorem no_expiry_in_body (s : SearchStatus) (rest : List Call)
    (hrest : ∀ c ∈ rest, c = Call.interrupt ∨ c = Call.resume) (i : Nat) :
    (Call.step s :: Call.is_expired false :: rest)[i]? ≠ some (Call.is_expired true) := by
  intro h
  rcases i with _ | _ | i
  · simp at h
  · simp at h
  · simp only [List.getElem?_cons_succ] at h
    have hmem := List.getElem?_mem h
    rcases hrest _ hmem with h' | h' <;> cases h'

/-- The timer discipline of the loop, from any state and for any number of
iterations. -/
theorem KStar.search_loop_timer {σ : Type} (E : BaseEngine σ) :
    ∀ (fuel : Nat) (k : KStar σ),
      (∀ i s, (calls (KStar.search_loop E fuel k).log)[i]? = some (Call.step s) →
        ∃ e, (calls (KStar.search_loop E fuel k).log)[i + 1]? = some (Call.is_expired e)) ∧
      (∀ i, (calls (KStar.search_loop E fuel k).log)[i]? = some (Call.is_expired true) →
        i + 1 = (calls (KStar.search_loop E fuel k).log).length ∧
        (∃ s, 1 ≤ i ∧ (calls (KStar.search_loop E fuel k).log)[i - 1]? = some (Call.step s)) ∧
        (KStar.search_loop E fuel k).returned = true ∧
        (KStar.search_loop E fuel k).final.status = TIMEOUT) := by
  intro fuel
  induction fuel with
  | zero =>
    intro k
    simp [KStar.search_loop, calls]
  | succ n ih =>
    intro k
    unfold KStar.search_loop
    by_cases hc : KStar.loop_condition k.status = true
    · obtain ⟨s, e, rest, hcalls, hrest, hbrk, hexp⟩ := KStar.search_body_calls E k
      simp only [hc, if_true]
      cases e with
      | true =>
        obtain ⟨hnil, hst⟩ := hexp rfl
        subst hnil
        simp only [hbrk, if_true, hcalls]
        refine ⟨step_then_timer_body s true [] hrest, ?_⟩
        intro i h
        rcases i with _ | _ | i
        · simp at h
        · exact ⟨by simp, ⟨s, by omega, by simp⟩, trivial, hst⟩
        · simp at h
      | false =>
        simp only [hbrk, Bool.false_eq_true, if_false]
        obtain ⟨ih1, ih2⟩ := ih (KStar.search_body E k).1
        have happ : calls ((KStar.search_body E k).2.1 ++
            (KStar.search_loop E n (KStar.search_body E k).1).log) =
            (Call.step s :: Call.is_expired false :: rest) ++
              calls (KStar.search_loop E n (KStar.search_body E k).1).log := by
          rw [← hcalls]
          simp [calls]
        rw [happ]
        refine ⟨step_then_timer_append _ _ (step_then_timer_body s false rest hrest) ih1, ?_⟩
        intro i h
        by_cases hi : i < (Call.step s :: Call.is_expired false :: rest).length
        · rw [List.getElem?_append_left hi] at h
          exact absurd h (no_expiry_in_body s rest hrest i)
        · have hi' : (Call.step s :: Call.is_expired false :: rest).length ≤ i := by omega
          rw [List.getElem?_append_right hi'] at h
          obtain ⟨h1, ⟨s', hs1, hs2⟩, h3, h4⟩ := ih2 _ h
          refine ⟨?_, ⟨s', by omega, ?_⟩, h3, h4⟩
          · rw [List.length_append]
            omega
          · rw [List.getElem?_append_right (by omega)]
            have hidx : i - 1 - (Call.step s :: Call.is_expired false :: rest).length =
                i - (Call.step s :: Call.is_expired false :: rest).length - 1 := by omega
            rw [hidx]
            exact hs2
    · simp [hc, calls]

/-- C3. In every run of `KStar::search` (any behaviour of `initialize`, `step`,
the timer, `interrupt` and `resume`; any number of iterations), every call of
`step()` is directly followed by a consultation of the timer, and a consultation
that finds the timer expired is the last call of the run: it comes right after a
`step()`, whatever that returned, no `interrupt()` or `resume()` follows it, the
loop has been left and `status` is `TIMEOUT`. -/
theorem KStar.search_timeout {σ : Type} (E : BaseEngine σ) (fuel : Nat) (k : KStar σ) :
    (∀ i s, (calls (KStar.search E fuel k).log)[i]? = some (Call.step s) →
        ∃ e, (calls (KStar.search E fuel k).log)[i + 1]? = some (Call.is_expired e)) ∧
      (∀ i, (calls (KStar.search E fuel k).log)[i]? = some (Call.is_expired true) →
        i + 1 = (calls (KStar.search E fuel k).log).length ∧
        (∃ s, 1 ≤ i ∧ (calls (KStar.search E fuel k).log)[i - 1]? = some (Call.step s)) ∧
        (KStar.search E fuel k).returned = true ∧
        (KStar.search E fuel k).final.status = TIMEOUT) := by
  unfold KStar.search
  exact KStar.search_loop_timer E fuel _

/-- Once `first_solution_found` is set it stays set, and the loop never calls
`interrupt()` again. -/
theorem KStar.search_loop_after_first_solution {σ : Type} (E : BaseEngine σ) :
    ∀ (fuel : Nat) (k : KStar σ), k.first_solution_found = true →
      (∀ e ∈ (KStar.search_loop E fuel k).log,
        e.call ≠ Call.interrupt ∧ e.first_solution_found = true) ∧
      (KStar.search_loop E fuel k).final.first_solution_found = true := by
  intro fuel
  induction fuel with
  | zero =>
    intro k hk
    simp [KStar.search_loop, hk]
  | succ n ih =>
    intro k hk
    unfold KStar.search_loop
    by_cases hc : KStar.loop_condition k.status = true
    · simp only [hc, if_true]
      rcases KStar.search_body_cases E k with
        ⟨hb, -, hf, s, hlog⟩ | ⟨-, hk', -⟩ | ⟨hb, hf, s, tail, -, hlog, htail⟩
      · simp only [hb, if_true, hlog, hf, hk]
        simp
      · rw [hk] at hk'
        cases hk'
      · simp only [hb, Bool.false_eq_true, if_false]
        obtain ⟨ih1, ih2⟩ := ih (KStar.search_body E k).1 (by rw [hf, hk])
        refine ⟨?_, ih2⟩
        intro e he
        rcases List.mem_append.1 he with he | he
        · rw [hlog, hk] at he
          rcases htail with rfl | rfl
          · simp at he
            rcases he with rfl | rfl <;> simp
          · simp at he
            rcases he with rfl | rfl | rfl <;> simp [hk]
        · exact ih1 e he
    · simp [hc, hk]

theorem solved_then_expired_append (a b : List Call)
    (ha : ∀ i, a[i]? = some (Call.step SOLVED) → a[i + 1]? = some (Call.is_expired true))
    (hb : ∀ i, b[i]? = some (Call.step SOLVED) → b[i + 1]? = some (Call.is_expired true)) :
    ∀ i, (a ++ b)[i]? = some (Call.step SOLVED) →
      (a ++ b)[i + 1]? = some (Call.is_expired true) := by
  intro i h
  by_cases hi : i < a.length
  · rw [List.getElem?_append_left hi] at h
    have he := ha i h
    have hlt : i + 1 < a.length := by
      by_contra hc
      rw [List.getElem?_eq_none (by omega)] at he
      cases he
    rw [List.getElem?_append_left hlt]
    exact he
  · have hi' : a.length ≤ i := by omega
    rw [List.getElem?_append_right hi'] at h
    have he := hb _ h
    rw [List.getElem?_append_right (by omega)]
    have hidx : i + 1 - a.length = i - a.length + 1 := by omega
    rw [hidx]
    exact he

/-- The shape of the call log of the loop when it is entered with
`first_solution_found` unset. -/
theorem KStar.search_loop_first_solution {σ : Type} (E : BaseEngine σ) :
    ∀ (fuel : Nat) (k : KStar σ), k.first_solution_found = false →
      ((∀ e ∈ (KStar.search_loop E fuel k).log,
            e.call ≠ Call.interrupt ∧ e.first_solution_found = false) ∧
          (KStar.search_loop E fuel k).final.first_solution_found = false ∧
          (∀ i, (calls (KStar.search_loop E fuel k).log)[i]? = some (Call.step SOLVED) →
            (calls (KStar.search_loop E fuel k).log)[i + 1]? = some (Call.is_expired true))) ∨
        (∃ pre post,
          (KStar.search_loop E fuel k).log =
            pre ++ [⟨Call.step SOLVED, false⟩, ⟨Call.is_expired false, false⟩,
              ⟨Call.interrupt, false⟩] ++ post ∧
          (∀ e ∈ pre, e.call ≠ Call.step SOLVED ∧ e.call ≠ Call.interrupt ∧
            e.first_solution_found = false) ∧
          (∀ e ∈ post, e.call ≠ Call.interrupt ∧ e.first_solution_found = true) ∧
          (KStar.search_loop E fuel k).final.first_solution_found = true) := by
  intro fuel
  induction fuel with
  | zero =>
    intro k hk
    left
    simp [KStar.search_loop, hk, calls]
  | succ n ih =>
    intro k hk
    unfold KStar.search_loop
    by_cases hc : KStar.loop_condition k.status = true
    · simp only [hc, if_true]
      rcases KStar.search_body_cases E k with
        ⟨hb, -, hf, s, hlog⟩ | ⟨hb, -, hf, tail, hlog, htail⟩ |
        ⟨hb, hf, s, tail, hs, hlog, htail⟩
      · left
        simp only [hb, if_true, hlog, hf, hk]
        refine ⟨by simp, trivial, ?_⟩
        intro i h
        rcases i with _ | _ | i
        · simp [calls]
        · simp [calls] at h
        · simp [calls] at h
      · right
        simp only [hb, Bool.false_eq_true, if_false]
        obtain ⟨ih1, ih2⟩ :=
          KStar.search_loop_after_first_solution E n (KStar.search_body E k).1 hf
        refine ⟨[], tail ++ (KStar.search_loop E n (KStar.search_body E k).1).log, ?_, by simp,
          ?_, ih2⟩
        · rw [hlog]
          simp
        · intro e he
          rcases List.mem_append.1 he with he | he
          · rcases htail with rfl | rfl
            · simp at he
            · simp at he
              subst he
              simp
          · exact ih1 e he
      · simp only [hb, Bool.false_eq_true, if_false]
        have hs' : s ≠ SOLVED := fun h => hs ⟨h, hk⟩
        have hbody : ∀ e ∈ (KStar.search_body E k).2.1,
            e.call ≠ Call.step SOLVED ∧ e.call ≠ Call.interrupt ∧
              e.first_solution_found = false := by
          intro e he
          rw [hlog, hk] at he
          rcases htail with rfl | rfl
          · simp at he
            rcases he with rfl | rfl <;> simp [hs']
          · simp at he
            rcases he with rfl | rfl | rfl <;> simp [hs', hk]
        rcases ih (KStar.search_body E k).1 (by rw [hf, hk]) with
          ⟨h1, h2, h3⟩ | ⟨pre, post, h1, h2, h3, h4⟩
        · left
          refine ⟨?_, h2, ?_⟩
          · intro e he
            rcases List.mem_append.1 he with he | he
            · exact ⟨(hbody e he).2.1, (hbody e he).2.2⟩
            · exact h1 e he
          · have happ : calls ((KStar.search_body E k).2.1 ++
                (KStar.search_loop E n (KStar.search_body E k).1).log) =
                calls (KStar.search_body E k).2.1 ++
                  calls (KStar.search_loop E n (KStar.search_body E k).1).log := by
              simp [calls]
            rw [happ]
            refine solved_then_expired_append _ _ ?_ h3
            intro i h
            have hmem := List.getElem?_mem h
            simp only [calls, List.mem_map] at hmem
            obtain ⟨e, he, hcall⟩ := hmem
            exact absurd hcall (hbody e he).1
        · right
          refine ⟨(KStar.search_body E k).2.1 ++ pre, post, ?_, ?_, h3, h4⟩
          · rw [h1]
            simp
          · intro e he
            rcases List.mem_append.1 he with he | he
            · exact hbody e he
            · exact h2 e he
    · left
      simp [hc, hk, calls]

/-- C4. In every run of `KStar::search` on a constructed engine, `interrupt()` is
called at most once. Either it is never called, `first_solution_found` is false
throughout, and no `step()` returned `SOLVED` with an unexpired timer; or the
log is `pre`, then `step()` returning `SOLVED`, the timer check answering
unexpired, and `interrupt()`, then `post`, where no `step()` of `pre` returned
`SOLVED`, `first_solution_found` is false at every call up to and including
`interrupt()`, and true at every call of `post` and at the end, and `post`
contains no `interrupt()`. -/
theorem KStar.search_interrupt_once {σ : Type} (E : BaseEngine σ) (fuel : Nat)
    (status : SearchStatus) (base : σ) :
    (calls (KStar.search E fuel (KStar.construct status base)).log).count Call.interrupt ≤ 1 ∧
      (((∀ e ∈ (KStar.search E fuel (KStar.construct status base)).log,
            e.call ≠ Call.interrupt ∧ e.first_solution_found = false) ∧
          (KStar.search E fuel (KStar.construct status base)).final.first_solution_found
            = false ∧
          (∀ i, (calls (KStar.search E fuel (KStar.construct status base)).log)[i]?
              = some (Call.step SOLVED) →
            (calls (KStar.search E fuel (KStar.construct status base)).log)[i + 1]?
              = some (Call.is_expired true))) ∨
        (∃ pre post,
          (KStar.search E fuel (KStar.construct status base)).log =
            pre ++ [⟨Call.step SOLVED, false⟩, ⟨Call.is_expired false, false⟩,
              ⟨Call.interrupt, false⟩] ++ post ∧
          (∀ e ∈ pre, e.call ≠ Call.step SOLVED ∧ e.call ≠ Call.interrupt ∧
            e.first_solution_found = false) ∧
          (∀ e ∈ post, e.call ≠ Call.interrupt ∧ e.first_solution_found = true) ∧
          (KStar.search E fuel (KStar.construct status base)).final.first_solution_found
            = true)) := by
  unfold KStar.search
  have h := KStar.search_loop_first_solution E fuel
    { status := (E.initialize_base (KStar.construct status base).status
        (KStar.construct status base).base).1,
      first_solution_found := (KStar.construct status base).first_solution_found,
      base := (E.initialize_base (KStar.construct status base).status
        (KStar.construct status base).base).2 } rfl
  refine ⟨?_, h⟩
  rcases h with ⟨h1, -, -⟩ | ⟨pre, post, h1, h2, h3, -⟩
  · rw [List.count_eq_zero_of_not_mem]
    · omega
    · intro hmem
      simp only [calls, List.mem_map] at hmem
      obtain ⟨e, he, hcall⟩ := hmem
      exact (h1 e he).1 hcall
  · rw [h1]
    have hpre : (calls pre).count Call.interrupt = 0 := by
      apply List.count_eq_zero_of_not_mem
      intro hmem
      simp only [calls, List.mem_map] at hmem
      obtain ⟨e, he, hcall⟩ := hmem
      exact (h2 e he).2.1 hcall
    have hpost : (calls post).count Call.interrupt = 0 := by
      apply List.count_eq_zero_of_not_mem
      intro hmem
      simp only [calls, List.mem_map] at hmem
      obtain ⟨e, he, hcall⟩ := hmem
      exact (h3 e he).1 hcall
    have happ : calls (pre ++ [⟨Call.step SOLVED, false⟩, ⟨Call.is_expired false, false⟩,
        ⟨Call.interrupt, false⟩] ++ post) =
        calls pre ++ [Call.step SOLVED, Call.is_expired false, Call.interrupt] ++ calls post := by
      simp [calls]
    rw [happ, List.count_append, List.count_append, hpre, hpost]
    decide

theorem KStar.search_timeout_witness :
    (calls (KStar.search (demoEngine 5) 10
        (KStar.construct IN_PROGRESS 0)).log)[11]? = some (Call.is_expired true) ∧
      (11 + 1 = (calls (KStar.search (demoEngine 5) 10
          (KStar.construct IN_PROGRESS 0)).log).length ∧
        (∃ s, 1 ≤ 11 ∧ (calls (KStar.search (demoEngine 5) 10
          (KStar.construct IN_PROGRESS 0)).log)[11 - 1]? = some (Call.step s)) ∧
        (KStar.search (demoEngine 5) 10 (KStar.construct IN_PROGRESS 0)).returned = true ∧
        (KStar.search (demoEngine 5) 10 (KStar.construct IN_PROGRESS 0)).final.status
          = TIMEOUT) :=
  ⟨by decide,
    (KStar.search_timeout (demoEngine 5) 10 (KStar.construct IN_PROGRESS 0)).2 11 (by decide)⟩

/-- A run of the test engine with a late deadline: the first `SOLVED` is followed
by `interrupt()` and `resume()`, the second `SOLVED` ends the loop without a
further `interrupt()`. -/
theorem KStar.search_demo_calls :
    calls (KStar.search (demoEngine 100) 10 (KStar.construct IN_PROGRESS 0)).log =
      [Call.step IN_PROGRESS, Call.is_expired false,
        Call.step SOLVED, Call.is_expired false, Call.interrupt, Call.resume,
        Call.step IN_PROGRESS, Call.is_expired false,
        Call.step IN_PROGRESS, Call.is_expired false,
        Call.step SOLVED, Call.is_expired false] ∧
      (KStar.search (demoEngine 100) 10 (KStar.construct IN_PROGRESS 0)).returned = true ∧
      (KStar.search (demoEngine 100) 10 (KStar.construct IN_PROGRESS 0)).final.status
        = SOLVED := by
  decide

/-- When the loop has been left, the loop condition is false for the final
status. -/
theorem KStar.search_loop_left {σ : Type} (E : BaseEngine σ) :
    ∀ (fuel : Nat) (k : KStar σ), (KStar.search_loop E fuel k).returned = true →
      KStar.loop_condition (KStar.search_loop E fuel k).final.status = false := by
  intro fuel
  induction fuel with
  | zero =>
    intro k h
    simpa [KStar.search_loop] using h
  | succ n ih =>
    intro k
    unfold KStar.search_loop
    by_cases hc : KStar.loop_condition k.status = true
    · simp only [hc, if_true]
      rcases KStar.search_body_cases E k with
        ⟨hb, hst, -⟩ | ⟨hb, -⟩ | ⟨hb, -⟩
      · simp only [hb, if_true, hst]
        intro _
        decide
      · simp only [hb, Bool.false_eq_true, if_false]
        exact ih _
      · simp only [hb, Bool.false_eq_true, if_false]
        exact ih _
    · simp only [hc, Bool.false_eq_true, if_false]
      intro _
      trivial

/-- C14. Whatever `initialize`, `step()`, the timer, `interrupt()` and `resume()`
do, if `KStar::search` returns then `status` is neither `IN_PROGRESS` nor
`INTERRUPTED`: the loop condition is false for it; and it is `TIMEOUT` whenever
the loop was left through the timer check. -/
theorem KStar.search_returns_terminal {σ : Type} (E : BaseEngine σ) (fuel : Nat) (k : KStar σ)
    (hret : (KStar.search E fuel k).returned = true) :
    (KStar.search E fuel k).final.status ≠ IN_PROGRESS ∧
      (KStar.search E fuel k).final.status ≠ INTERRUPTED ∧
      KStar.loop_condition (KStar.search E fuel k).final.status = false ∧
      ((∃ i : Nat, (calls (KStar.search E fuel k).log)[i]? = some (Call.is_expired true)) →
        (KStar.search E fuel k).final.status = TIMEOUT) := by
  unfold KStar.search at hret ⊢
  have hleft := KStar.search_loop_left E fuel _ hret
  refine ⟨?_, ?_, hleft, ?_⟩
  · intro h
    rw [h] at hleft
    revert hleft
    decide
  · intro h
    rw [h] at hleft
    revert hleft
    decide
  · rintro ⟨i, hi⟩
    exact ((KStar.search_loop_timer E fuel _).2 i hi).2.2.2

theorem KStar.search_returns_terminal_witness :
    (KStar.search (demoEngine 100) 10 (KStar.construct IN_PROGRESS 0)).final.status
        ≠ IN_PROGRESS ∧
      (KStar.search (demoEngine 100) 10 (KStar.construct IN_PROGRESS 0)).final.status
        ≠ INTERRUPTED ∧
      KStar.loop_condition
        (KStar.search (demoEngine 100) 10 (KStar.construct IN_PROGRESS 0)).final.status
        = false ∧
      ((∃ i : Nat, (calls (KStar.search (demoEngine 100) 10
          (KStar.construct IN_PROGRESS 0)).log)[i]? = some (Call.is_expired true)) →
        (KStar.search (demoEngine 100) 10 (KStar.construct IN_PROGRESS 0)).final.status
          = TIMEOUT) :=
  KStar.search_returns_terminal (demoEngine 100) 10 (KStar.construct IN_PROGRESS 0) (by decide)

/-! ## The `kstar` plugin -/

/-- C7 (as stated, refuted). Parsed options that supply `reopen_closed=false`
give an engine constructed with `reopen_closed` true. -/
theorem _parse_reopen_closed_counterexample :
    (_parse (fun _ => (OptionValue.object 0, OptionValue.object 1))
        ⟨⟨[("reopen_closed", OptionValue.bool false)]⟩, false⟩).map
          TopKEagerSearch.reopen_closed_nodes = some (some true) ∧
      Options.get_bool ⟨[("reopen_closed", OptionValue.bool false)]⟩ "reopen_closed"
        = some false := by
  decide

/-- C7 (amended). Outside a dry run, `_parse` constructs the engine from options
in which `reopen_closed` is true, whatever the parsed options contain; in a dry
run it constructs no engine. -/
theorem _parse_reopen_closed (create_astar : Options → OptionValue × OptionValue)
    (parser : OptionParser) :
    (parser.dry_run = false →
        ∃ opts, _parse create_astar parser = some opts ∧
          TopKEagerSearch.reopen_closed_nodes opts = some true) ∧
      (parser.dry_run = true → _parse create_astar parser = none) := by
  constructor
  · intro h
    simp [_parse, h, TopKEagerSearch.reopen_closed_nodes, Options.get_bool, Options.set,
      List.find?]
  · intro h
    simp [_parse, h]

theorem _parse_reopen_closed_witness :
    (∃ opts, _parse (fun _ => (OptionValue.object 0, OptionValue.object 1))
          ⟨⟨[("reopen_closed", OptionValue.bool false)]⟩, false⟩ = some opts ∧
        TopKEagerSearch.reopen_closed_nodes opts = some true) :=
  (_parse_reopen_closed (fun _ => (OptionValue.object 0, OptionValue.object 1))
    ⟨⟨[("reopen_closed", OptionValue.bool false)]⟩, false⟩).1 rfl

end kstar

/-! ## Cost order of the emitted plans -/

namespace kstar

/-- In the run with one reset the plans emitted since the reset are the last
four; the run without invalidation emits each cost once. -/
theorem Orchestration.reset_run_pass :
    (Orchestration.run resetAStar 10 10 0 20 (Orchestration.start 10 0 0)).pass_start = 3 ∧
      (Orchestration.run resetAStar 10 10 0 20 (Orchestration.start 10 0 0)).top_k_plans.drop 3
        = [10, 12, 13, 15] ∧
      (Orchestration.run demoAStar 10 6 0 20 (Orchestration.start 10 0 ())).top_k_plans =
        [10, 10, 12, 13, 15] := by
  decide

end kstar

/-! ## Pattern generation -/

theorem foldl_invariant {α β : Type} (P : β → Prop) (f : β → α → β)
    (h : ∀ b a, P b → P (f b a)) : ∀ (l : List α) (b : β), P b → P (l.foldl f b) := by
  intro l
  induction l with
  | nil => intro b hb; exact hb
  | cons a l ih => intro b hb; exact ih (f b a) (h b a hb)

namespace pdbs

namespace PatternGenerationHaslum

variable {S H W : Type}

/-- The function `generate_candidate_patterns` changes no member other than
`num_rejected`. -/
theorem generate_candidate_patterns_frame (T : Task S) (C : Collaborators S H W)
    (self : PatternGenerationHaslum S H W) (pdb : PatternDatabase)
    (candidate_patterns : List Pattern) :
    ∃ n, (generate_candidate_patterns T C self pdb candidate_patterns).1 =
      { self with num_rejected := n } := by
  unfold generate_candidate_patterns
  apply foldl_invariant
    (fun acc : PatternGenerationHaslum S H W × List Pattern =>
      ∃ n, acc.1 = { self with num_rejected := n })
  · intro b a hb
    apply foldl_invariant
      (fun acc : PatternGenerationHaslum S H W × List Pattern =>
        ∃ n, acc.1 = { self with num_rejected := n })
    · intro b' v hb'
      obtain ⟨n, hn⟩ := hb'
      dsimp only
      split
      · exact ⟨n, hn⟩
      · exact ⟨n + 1, by rw [hn]⟩
    · exact hb
  · exact ⟨self.num_rejected, rfl⟩

theorem initial_candidates_frame (T : Task S) (C : Collaborators S H W)
    (self : PatternGenerationHaslum S H W) (pdbs : List PatternDatabase) :
    ∃ n, (pdbs.foldl
        (fun acc current_pdb => generate_candidate_patterns T C acc.1 current_pdb acc.2)
        (self, [])).1 = { self with num_rejected := n } := by
  apply foldl_invariant
    (fun acc : PatternGenerationHaslum S H W × List Pattern =>
      ∃ n, acc.1 = { self with num_rejected := n })
  · intro b a hb
    obtain ⟨n, hn⟩ := hb
    obtain ⟨n', hn'⟩ := generate_candidate_patterns_frame T C b.1 a b.2
    exact ⟨n', by rw [hn', hn]⟩
  · exact ⟨self.num_rejected, rfl⟩

/-- C9. With `max_time` set to 0, `initialize()` returns (whatever the fuel)
without calling `hill_climbing`: no event is logged (no hill climbing, no
candidate PDB created, no state sampled, no pattern added, no pruning), and the
collection is the heuristic built from the initial collection, one singleton
pattern per goal fact in goal order. -/
theorem initialize_without_hill_climbing (T : Task S) (C : Collaborators S H W) (fuel : Nat)
    (m : Members W) (hmax : m.max_time = Duration.seconds 0) :
    ∃ pgh, initialize_pgh T C fuel m = Outcome.done pgh ∧
      pgh.log = [] ∧
      pgh.current_heuristic = C.canonical_new (T.goals.map (fun goal => [goal.1])) := by
  unfold initialize_pgh
  dsimp only
  split
  · exact ⟨_, rfl, rfl, rfl⟩
  · obtain ⟨n, hn⟩ := initial_candidates_frame T C
      { toMembers := m, current_heuristic := C.canonical_new (initial_pattern_collection T),
        log := [] }
      (C.get_pattern_databases (C.canonical_new (initial_pattern_collection T)))
    rw [hn]
    simp only [hmax, Duration.is_positive]
    exact ⟨_, rfl, rfl, rfl⟩

theorem initialize_without_hill_climbing_witness :
    ∃ pgh, initialize_pgh demoTask demoCollaborators 5 (demoMembers (Duration.seconds 0))
        = Outcome.done pgh ∧
      pgh.log = [] ∧
      pgh.current_heuristic =
        demoCollaborators.canonical_new (demoTask.goals.map (fun goal => [goal.1])) :=
  initialize_without_hill_climbing demoTask demoCollaborators 5
    (demoMembers (Duration.seconds 0)) rfl

/-- On sorted ranges, the first without repetitions, `std::set_difference`
yields the elements of the first range that are not in the second. -/
theorem set_difference_loop_eq_filter :
    ∀ (fuel : Nat) (a b : List Nat), a.length + b.length ≤ fuel →
      a.Sorted (· < ·) → b.Sorted (· ≤ ·) →
      set_difference_loop fuel a b = a.filter (fun v => decide (v ∉ b)) := by
  intro fuel
  induction fuel with
  | zero =>
    intro a b hlen _ _
    have ha : a = [] := List.length_eq_zero.1 (by omega)
    subst ha
    rfl
  | succ n ih =>
    intro a b hlen ha hb
    cases a with
    | nil => rfl
    | cons x as =>
      cases b with
      | nil => simp [set_difference_loop]
      | cons y bs =>
        obtain ⟨hx, has⟩ := List.sorted_cons.1 ha
        obtain ⟨hy, hbs⟩ := List.sorted_cons.1 hb
        simp only [List.length_cons] at hlen
        unfold set_difference_loop
        by_cases hxy : x < y
        · have hnot : x ∉ y :: bs := by
            intro hmem
            rcases List.mem_cons.1 hmem with h | h
            · omega
            · have := hy x h
              omega
          rw [if_pos hxy, List.filter_cons_of_pos (by simpa using hnot),
            ih as (y :: bs) (by simp only [List.length_cons]; omega) has hb]
        · by_cases hyx : y < x
          · rw [if_neg hxy, if_pos hyx,
              ih (x :: as) bs (by simp only [List.length_cons]; omega) ha hbs]
            apply List.filter_congr
            intro v hv
            have hvy : v ≠ y := by
              rcases List.mem_cons.1 hv with h | h
              · omega
              · have := hx v h
                omega
            simp [hvy]
          · have hEq : x = y := by omega
            subst hEq
            rw [if_neg hxy, if_neg hyx, ih as bs (by omega) has hbs,
              List.filter_cons_of_neg (by simp)]
            apply List.filter_congr
            intro v hv
            have hvx : v ≠ x := by
              have := hx v hv
              omega
            simp [hvx]

theorem set_difference_eq_filter (a b : List Nat) (ha : a.Sorted (· < ·))
    (hb : b.Sorted (· ≤ ·)) :
    set_difference a b = a.filter (fun v => decide (v ∉ b)) :=
  set_difference_loop_eq_filter _ a b (le_refl _) ha hb

/-- The inner loop of `generate_candidate_patterns` over the relevant variables
of one pattern variable. -/
theorem generate_candidate_patterns_inner (T : Task S) (C : Collaborators S H W)
    (self : PatternGenerationHaslum S H W) (pdb : PatternDatabase) :
    ∀ (vs : List Nat) (n : Int) (cands : List Pattern),
      vs.foldl
          (fun (acc : PatternGenerationHaslum S H W × List Pattern) rel_var_id =>
            if C.is_product_within_limit pdb.size (T.domain_size rel_var_id)
                acc.1.pdb_max_size then
              (acc.1, acc.2 ++ [(pdb.pattern ++ [rel_var_id]).insertionSort (· ≤ ·)])
            else
              ({ acc.1 with num_rejected := acc.1.num_rejected + 1 }, acc.2))
          ({ self with num_rejected := n }, cands) =
        ({ self with num_rejected := n + ((vs.filter (fun v =>
              !C.is_product_within_limit pdb.size (T.domain_size v)
                self.pdb_max_size)).length : Nat) },
          cands ++ (vs.filter (fun v =>
              C.is_product_within_limit pdb.size (T.domain_size v) self.pdb_max_size)).map
            (fun v => (pdb.pattern ++ [v]).insertionSort (· ≤ ·))) := by
  intro vs
  induction vs with
  | nil =>
    intro n cands
    simp
  | cons v vs ih =>
    intro n cands
    rw [List.foldl_cons]
    by_cases hv : C.is_product_within_limit pdb.size (T.domain_size v) self.pdb_max_size = true
    · simp only [hv, if_true]
      rw [ih]
      simp [hv]
    · simp only [hv, Bool.false_eq_true, if_false]
      rw [ih]
      simp only [Bool.not_eq_true] at hv
      simp [hv]
      omega

/-- The outer loop of `generate_candidate_patterns` over pattern variables. -/
theorem generate_candidate_patterns_outer (T : Task S) (C : Collaborators S H W)
    (self : PatternGenerationHaslum S H W) (pdb : PatternDatabase) :
    ∀ (ps : List Nat) (n : Int) (cands : List Pattern),
      ps.foldl
          (fun (acc : PatternGenerationHaslum S H W × List Pattern) p =>
            (set_difference (T.eff_to_pre p) pdb.pattern).foldl
              (fun (acc : PatternGenerationHaslum S H W × List Pattern) rel_var_id =>
                if C.is_product_within_limit pdb.size (T.domain_size rel_var_id)
                    acc.1.pdb_max_size then
                  (acc.1, acc.2 ++ [(pdb.pattern ++ [rel_var_id]).insertionSort (· ≤ ·)])
                else
                  ({ acc.1 with num_rejected := acc.1.num_rejected + 1 }, acc.2))
              acc)
          ({ self with num_rejected := n }, cands) =
        ({ self with num_rejected := n +
            (((ps.flatMap (fun p => set_difference (T.eff_to_pre p) pdb.pattern)).filter
              (fun v => !C.is_product_within_limit pdb.size (T.domain_size v)
                self.pdb_max_size)).length : Nat) },
          cands ++
            ((ps.flatMap (fun p => set_difference (T.eff_to_pre p) pdb.pattern)).filter
              (fun v => C.is_product_within_limit pdb.size (T.domain_size v)
                self.pdb_max_size)).map
              (fun v => (pdb.pattern ++ [v]).insertionSort (· ≤ ·))) := by
  intro ps
  induction ps with
  | nil =>
    intro n cands
    simp
  | cons p ps ih =>
    intro n cands
    rw [List.foldl_cons, generate_candidate_patterns_inner, ih]
    simp only [List.flatMap_cons, List.filter_append, List.length_append, List.map_append,
      List.append_assoc, Nat.cast_add, Prod.mk.injEq, and_true]
    rw [add_assoc]

theorem extension_vars_eq (T : Task S) (pattern : Pattern)
    (hpat : pattern.Sorted (· ≤ ·))
    (hrel : ∀ p ∈ pattern, (T.eff_to_pre p).Sorted (· < ·)) :
    ∀ (ps : List Nat), (∀ p ∈ ps, p ∈ pattern) →
      ps.flatMap (fun p => set_difference (T.eff_to_pre p) pattern) =
        ps.flatMap (fun p => (T.eff_to_pre p).filter (fun v => decide (v ∉ pattern))) := by
  intro ps
  induction ps with
  | nil => intro _; rfl
  | cons p ps ih =>
    intro hps
    rw [List.flatMap_cons, List.flatMap_cons,
      set_difference_eq_filter _ _ (hrel p (hps p (List.mem_cons_self _ _))) hpat,
      ih (fun q hq => hps q (List.mem_cons_of_mem _ hq))]

theorem length_flatMap_eq_sum (f : Nat → List Nat) :
    ∀ (ps : List Nat), (ps.flatMap f).length = (ps.map (fun p => (f p).length)).sum := by
  intro ps
  induction ps with
  | nil => rfl
  | cons p ps ih =>
    rw [List.flatMap_cons, List.length_append, ih, List.map_cons, List.sum_cons]

/-- C11. For a PDB with a sorted pattern, on a causal graph whose `eff_to_pre`
lists are sorted without repetitions, `generate_candidate_patterns` appends, in
the order of its loops, exactly the sorted extensions of the pattern by those
variables of `eff_to_pre(p)` outside the pattern for which
`is_product_within_limit(pdb_size, domain_size(v), pdb_max_size)` holds; every
other such variable appends nothing and adds one to `num_rejected`, and nothing
else of the object changes. Hence appended candidates plus the increase of
`num_rejected` is the sum over the pattern variables `p` of the number of
variables of `eff_to_pre(p)` not in the pattern. -/
theorem generate_candidate_patterns_within_limit (T : Task S) (C : Collaborators S H W)
    (self : PatternGenerationHaslum S H W) (pdb : PatternDatabase)
    (candidate_patterns : List Pattern)
    (hpat : pdb.pattern.Sorted (· ≤ ·))
    (hrel : ∀ p ∈ pdb.pattern, (T.eff_to_pre p).Sorted (· < ·)) :
    (generate_candidate_patterns T C self pdb candidate_patterns).2 =
        candidate_patterns ++
          ((extension_vars T pdb.pattern).filter
            (fun v => C.is_product_within_limit pdb.size (T.domain_size v)
              self.pdb_max_size)).map
            (fun v => (pdb.pattern ++ [v]).insertionSort (· ≤ ·)) ∧
      (generate_candidate_patterns T C self pdb candidate_patterns).1 =
        { self with num_rejected := self.num_rejected +
            (((extension_vars T pdb.pattern).filter
              (fun v => !C.is_product_within_limit pdb.size (T.domain_size v)
                self.pdb_max_size)).length : Nat) } ∧
      (((generate_candidate_patterns T C self pdb candidate_patterns).2.length : Int)
            - candidate_patterns.length) +
          ((generate_candidate_patterns T C self pdb candidate_patterns).1.num_rejected
            - self.num_rejected) =
        ((pdb.pattern.map (fun p =>
          ((T.eff_to_pre p).filter (fun v => decide (v ∉ pdb.pattern))).length)).sum : Nat) := by
  have hmain : generate_candidate_patterns T C self pdb candidate_patterns =
      ({ self with num_rejected := self.num_rejected +
            (((extension_vars T pdb.pattern).filter
              (fun v => !C.is_product_within_limit pdb.size (T.domain_size v)
                self.pdb_max_size)).length : Nat) },
        candidate_patterns ++
          ((extension_vars T pdb.pattern).filter
            (fun v => C.is_product_within_limit pdb.size (T.domain_size v)
              self.pdb_max_size)).map
            (fun v => (pdb.pattern ++ [v]).insertionSort (· ≤ ·))) := by
    have h := generate_candidate_patterns_outer T C self pdb pdb.pattern self.num_rejected
      candidate_patterns
    rw [extension_vars_eq T pdb.pattern hpat hrel pdb.pattern (fun _ hp => hp)] at h
    exact h
  rw [hmain]
  refine ⟨rfl, rfl, ?_⟩
  have hlen := List.length_eq_length_filter_add
    (fun v => C.is_product_within_limit pdb.size (T.domain_size v) self.pdb_max_size)
    (l := extension_vars T pdb.pattern)
  have hsum : (extension_vars T pdb.pattern).length =
      (pdb.pattern.map (fun p =>
        ((T.eff_to_pre p).filter (fun v => decide (v ∉ pdb.pattern))).length)).sum :=
    length_flatMap_eq_sum _ pdb.pattern
  simp only [List.length_append, List.length_map, Nat.cast_add]
  rw [← hsum, hlen]
  push_cast
  ring

theorem generate_candidate_patterns_within_limit_witness :
    (((generate_candidate_patterns demoTask demoCollaborators demoObject ⟨[0, 2], 4⟩
            [[9]]).2.length : Int) - ([[9]] : List Pattern).length) +
        ((generate_candidate_patterns demoTask demoCollaborators demoObject ⟨[0, 2], 4⟩
            [[9]]).1.num_rejected - demoObject.num_rejected) =
      ((([0, 2] : List Nat).map (fun p =>
        ((demoTask.eff_to_pre p).filter (fun v => decide (v ∉ [0, 2]))).length)).sum : Nat) :=
  (generate_candidate_patterns_within_limit demoTask demoCollaborators demoObject
    ⟨[0, 2], 4⟩ [[9]] (by decide) (by decide)).2.2

theorem generate_candidate_patterns_limits (T : Task S) (C : Collaborators S H W)
    (self : PatternGenerationHaslum S H W) (pdb : PatternDatabase)
    (candidate_patterns : List Pattern) :
    (generate_candidate_patterns T C self pdb candidate_patterns).1.toMembers.limits =
      self.toMembers.limits := by
  obtain ⟨n, hn⟩ := generate_candidate_patterns_frame T C self pdb candidate_patterns
  rw [hn]
  rfl

theorem generate_pdbs_for_candidates_limits (T : Task S)
    (self : PatternGenerationHaslum S H W) (generated_patterns new_candidates : List Pattern)
    (candidate_pdbs : List (Option PatternDatabase)) :
    (generate_pdbs_for_candidates T self generated_patterns new_candidates
        candidate_pdbs).1.toMembers.limits = self.toMembers.limits := by
  unfold generate_pdbs_for_candidates
  apply foldl_invariant
    (fun acc : PatternGenerationHaslum S H W × Candidates =>
      acc.1.toMembers.limits = self.toMembers.limits)
  · intro b a hb
    dsimp only
    split
    · exact hb
    · exact hb
  · rfl

theorem sample_loop_limits (C : Collaborators S H W) (n : Int) :
    ∀ (remaining : Nat) (self : PatternGenerationHaslum S H W) (samples : List S),
      (sample_loop C n remaining self samples).1.toMembers.limits = self.toMembers.limits := by
  intro remaining
  induction remaining with
  | zero => intro self samples; rfl
  | succ k ih =>
    intro self samples
    unfold sample_loop
    dsimp only
    split
    · rfl
    · rw [ih]
      rfl

theorem find_best_loop_limits (T : Task S) (C : Collaborators S H W) (samples : List S) :
    ∀ (todo : List Nat) (self : PatternGenerationHaslum S H W) (best : BestSoFar),
      (find_best_loop T C samples todo self best).1.toMembers.limits =
        self.toMembers.limits := by
  intro todo
  induction todo with
  | nil => intro self best; rfl
  | cons i todo ih =>
    intro self best
    unfold find_best_loop
    dsimp only
    split
    · rfl
    · split
      · rw [ih]
        rfl
      · split
        · rw [ih]
          rfl
        · split
          · rw [ih]
            rfl
          · rw [ih]
            rfl

theorem hill_climbing_loop_limits (T : Task S) (C : Collaborators S H W) :
    ∀ (fuel : Nat) (self : PatternGenerationHaslum S H W) (L : Locals)
      (r : PatternGenerationHaslum S H W × Locals),
      hill_climbing_loop T C fuel self L = Outcome.done r →
        r.1.toMembers.limits = self.toMembers.limits := by
  intro fuel
  induction fuel with
  | zero =>
    intro self L r h
    simp [hill_climbing_loop] at h
  | succ k ih =>
    intro self L r h
    unfold hill_climbing_loop at h
    dsimp only at h
    have hg := generate_pdbs_for_candidates_limits T self L.generated_patterns
      L.new_candidates L.candidate_pdbs
    have hs := sample_loop_limits C
    split at h
    · cases h
      rfl
    · split at h
      · cases h
        dsimp only
        unfold sample_states
        rw [sample_loop_limits, hg]
      · rename_i samples hsamples
        split at h
        · cases h
          dsimp only
          unfold find_best_improving_pdb sample_states
          dsimp only
          rw [find_best_loop_limits, sample_loop_limits, hg]
        · split at h
          · cases h
            dsimp only
            unfold find_best_improving_pdb sample_states
            dsimp only
            rw [find_best_loop_limits, sample_loop_limits, hg]
          · split at h
            · cases h
            · have := ih _ _ _ h
              rw [this, generate_candidate_patterns_limits]
              unfold find_best_improving_pdb sample_states
              dsimp only
              show (find_best_loop T C _ _ _ _).1.toMembers.limits = _
              rw [find_best_loop_limits, sample_loop_limits, hg]

theorem hill_climbing_limits (T : Task S) (C : Collaborators S H W) (fuel : Nat)
    (self : PatternGenerationHaslum S H W) (initial_candidate_patterns : List Pattern)
    (r : PatternGenerationHaslum S H W × List Pattern)
    (h : hill_climbing T C fuel self initial_candidate_patterns = Outcome.done r) :
    r.1.toMembers.limits = self.toMembers.limits := by
  unfold hill_climbing at h
  dsimp only at h
  generalize hloop : hill_climbing_loop T C fuel _ _ = o at h
  cases o with
  | done r' =>
    have hl := hill_climbing_loop_limits T C fuel _ _ r' hloop
    simp only [Outcome.map, Outcome.done.injEq] at h
    rw [← h]
    exact hl
  | undefined => simp [Outcome.map] at h
  | out_of_fuel => simp [Outcome.map] at h

/-- The constructor leaves the four validated limits as the options give them. -/
theorem construct_limits (T : Task S) (C : Collaborators S H W) (fuel : Nat)
    (opts : IpdbOptions) (world : W) (pgh : PatternGenerationHaslum S H W)
    (h : construct T C fuel opts world = Outcome.done pgh) :
    pgh.toMembers.limits =
      (opts.pdb_max_size, opts.collection_max_size, opts.num_samples, opts.min_improvement) := by
  unfold construct initialize_pgh at h
  dsimp only at h
  split at h
  · cases h
    rfl
  · obtain ⟨n, hn⟩ := initial_candidates_frame T C
      { toMembers :=
          { pdb_max_size := opts.pdb_max_size,
            collection_max_size := opts.collection_max_size,
            num_samples := opts.num_samples,
            min_improvement := opts.min_improvement,
            max_time := opts.max_time,
            num_rejected := 0,
            world := world },
        current_heuristic := C.canonical_new (initial_pattern_collection T),
        log := [] }
      (C.get_pattern_databases (C.canonical_new (initial_pattern_collection T)))
    rw [hn] at h
    split at h
    · generalize hhc : hill_climbing T C fuel _ _ = o at h
      cases o with
      | done r =>
        have hl := hill_climbing_limits T C fuel _ _ r hhc
        simp only [Outcome.map, Outcome.done.injEq] at h
        rw [← h, hl]
        rfl
      | undefined => simp [Outcome.map] at h
      | out_of_fuel => simp [Outcome.map] at h
    · cases h
      rfl

end PatternGenerationHaslum

/-- C10. Outside help mode, `_parse` of the `ipdb` plugin reports a parser error
exactly when `pdb_max_size < 1`, or `collection_max_size < 1`, or
`min_improvement < 1`, or `min_improvement > num_samples`; and whenever `_parse`
constructs a `PatternGenerationHaslum`, the options it is constructed from and
the members of the constructed object satisfy `1 <= min_improvement <=
num_samples`, `pdb_max_size >= 1` and `collection_max_size >= 1`. -/
theorem _parse_validates_options {S H W : Type} (T : Task S) (C : Collaborators S H W)
    (fuel : Nat) (world : W) (parser : OptionParser) :
    (parser.help_mode = false →
        ((∃ msg, _parse T C fuel world parser = Except.error msg) ↔
          (parser.parsed.pdb_max_size < 1 ∨ parser.parsed.collection_max_size < 1 ∨
            parser.parsed.min_improvement < 1 ∨
            parser.parsed.min_improvement > parser.parsed.num_samples))) ∧
      (∀ outcome, _parse T C fuel world parser = Except.ok (some outcome) →
        (1 ≤ parser.parsed.min_improvement ∧
          parser.parsed.min_improvement ≤ parser.parsed.num_samples ∧
          1 ≤ parser.parsed.pdb_max_size ∧ 1 ≤ parser.parsed.collection_max_size) ∧
        ∀ pgh, outcome = Outcome.done pgh →
          1 ≤ pgh.min_improvement ∧ pgh.min_improvement ≤ pgh.num_samples ∧
            1 ≤ pgh.pdb_max_size ∧ 1 ≤ pgh.collection_max_size) := by
  constructor
  · intro hhelp
    unfold _parse
    simp only [hhelp, Bool.false_eq_true, if_false]
    by_cases h1 : parser.parsed.pdb_max_size < 1
    · simp [h1]
    · by_cases h2 : parser.parsed.collection_max_size < 1
      · simp [h1, h2]
      · by_cases h3 : parser.parsed.min_improvement < 1
        · simp [h1, h2, h3]
        · by_cases h4 : parser.parsed.min_improvement > parser.parsed.num_samples
          · simp [h1, h2, h3, h4]
          · simp only [h1, h2, h3, h4, if_false, or_self, iff_false, not_exists]
            intro msg
            split <;> simp
  · intro outcome h
    unfold _parse at h
    dsimp only at h
    split at h
    · cases h
    · split at h
      · cases h
      · split at h
        · cases h
        · split at h
          · cases h
          · split at h
            · cases h
            · split at h
              · cases h
              · rename_i h1 h2 h3 h4 _
                simp only [Except.ok.injEq, Option.some.injEq] at h
                have hopts : 1 ≤ parser.parsed.min_improvement ∧
                    parser.parsed.min_improvement ≤ parser.parsed.num_samples ∧
                    1 ≤ parser.parsed.pdb_max_size ∧
                    1 ≤ parser.parsed.collection_max_size := by
                  omega
                refine ⟨hopts, ?_⟩
                intro pgh hpgh
                rw [hpgh] at h
                have hl := PatternGenerationHaslum.construct_limits T C fuel parser.parsed world
                  pgh h
                simp only [Members.limits, Prod.mk.injEq] at hl
                obtain ⟨e1, e2, e3, e4⟩ := hl
                rw [e1, e2, e3, e4]
                exact hopts

theorem _parse_validates_options_witness :
    (∃ msg, _parse demoTask demoCollaborators 5 0 demoParser = Except.error msg) ↔
      (demoParser.parsed.pdb_max_size < 1 ∨ demoParser.parsed.collection_max_size < 1 ∨
        demoParser.parsed.min_improvement < 1 ∨
        demoParser.parsed.min_improvement > demoParser.parsed.num_samples) :=
  (_parse_validates_options demoTask demoCollaborators 5 0 demoParser).1 rfl

end pdbs

/-! ## Selection of the best candidate -/

namespace pdbs

namespace PatternGenerationHaslum

variable {S H W : Type}

/-- The loop of `find_best_improving_pdb` is the timer check followed by one
visit of the candidate. -/
theorem find_best_loop_cons (T : Task S) (C : Collaborators S H W) (samples : List S)
    (i : Nat) (todo : List Nat) (self : PatternGenerationHaslum S H W) (best : BestSoFar) :
    find_best_loop T C samples (i :: todo) self best =
      if (C.timer_expired self.world).1 then
        ({ self with world := (C.timer_expired self.world).2 }, best, true)
      else
        find_best_loop T C samples todo
          (find_best_visit T C samples i
            { self with world := (C.timer_expired self.world).2 } best).1
          (find_best_visit T C samples i
            { self with world := (C.timer_expired self.world).2 } best).2 := by
  rw [find_best_loop]
  dsimp only
  split
  · rfl
  · unfold find_best_visit fits_collection improvement_count
    split
    · rename_i h
      simp only [h]
    · rename_i pdb h
      simp only [h]
      split
      · rename_i hbig
        simp [hbig]
      · rename_i hbig
        simp only [hbig, not_false_eq_true, decide_True, if_true]
        split <;> rfl

/-- The count and the size test depend on the object only through the current
collection and the size limit. -/
theorem improvement_count_congr (T : Task S) (C : Collaborators S H W)
    (self self' : PatternGenerationHaslum S H W) (samples : List S) (pdb : PatternDatabase)
    (h : self'.current_heuristic = self.current_heuristic) :
    improvement_count T C self' samples pdb = improvement_count T C self samples pdb := by
  unfold improvement_count is_heuristic_improved
  rw [h]

theorem fits_collection_congr (C : Collaborators S H W)
    (self self' : PatternGenerationHaslum S H W) (pdb : PatternDatabase)
    (h : self'.current_heuristic = self.current_heuristic)
    (hmax : self'.collection_max_size = self.collection_max_size) :
    fits_collection C self' pdb = fits_collection C self pdb := by
  unfold fits_collection
  rw [h, hmax]

/-- The three ways in which the visit of candidate `i` can go: the entry is null
(or out of range); the candidate does not fit and is deleted; the candidate fits
and is evaluated. -/
theorem find_best_visit_cases (T : Task S) (C : Collaborators S H W) (samples : List S)
    (i : Nat) (self : PatternGenerationHaslum S H W) (best : BestSoFar) :
    (best.candidate_pdbs.getD i none = none ∧
        find_best_visit T C samples i self best = (self, best)) ∨
      (∃ pdb, best.candidate_pdbs.getD i none = some pdb ∧ fits_collection C self pdb = false ∧
        find_best_visit T C samples i self best =
          (self, { best with candidate_pdbs := best.candidate_pdbs.set i none })) ∨
      (∃ pdb, best.candidate_pdbs.getD i none = some pdb ∧ fits_collection C self pdb = true ∧
        (find_best_visit T C samples i self best).1 =
          { self with log := self.log ++ [Event.evaluate i] } ∧
        ((improvement_count T C self samples pdb > best.improvement ∧
            (find_best_visit T C samples i self best).2 =
              { best with improvement := improvement_count T C self samples pdb,
                          best_pdb_index := i }) ∨
          (improvement_count T C self samples pdb ≤ best.improvement ∧
            (find_best_visit T C samples i self best).2 = best))) := by
  unfold find_best_visit
  cases hget : best.candidate_pdbs.getD i none with
  | none =>
    left
    exact ⟨rfl, rfl⟩
  | some pdb =>
    right
    by_cases hfit : fits_collection C self pdb = true
    · right
      refine ⟨pdb, rfl, hfit, ?_⟩
      have hcount : improvement_count T C
          { self with log := self.log ++ [Event.evaluate i] } samples pdb =
          improvement_count T C self samples pdb :=
        improvement_count_congr T C self _ samples pdb rfl
      simp only [hfit, if_true, hcount]
      by_cases hgt : improvement_count T C self samples pdb > best.improvement
      · simp only [hgt, if_true]
        exact ⟨trivial, Or.inl ⟨trivial, trivial⟩⟩
      · simp only [hgt, if_false]
        exact ⟨trivial, Or.inr ⟨by omega, trivial⟩⟩
    · left
      simp only [Bool.not_eq_true] at hfit
      refine ⟨pdb, rfl, hfit, ?_⟩
      simp [hfit]

/-- A visit changes neither the collection nor the size limit. -/
theorem find_best_visit_same (T : Task S) (C : Collaborators S H W) (samples : List S)
    (i : Nat) (self : PatternGenerationHaslum S H W) (best : BestSoFar) :
    (find_best_visit T C samples i self best).1.current_heuristic = self.current_heuristic ∧
      (find_best_visit T C samples i self best).1.collection_max_size =
        self.collection_max_size := by
  rcases find_best_visit_cases T C samples i self best with
    ⟨-, h⟩ | ⟨pdb, -, -, h⟩ | ⟨pdb, -, -, h, -⟩
  · rw [h]
    exact ⟨rfl, rfl⟩
  · rw [h]
    exact ⟨rfl, rfl⟩
  · rw [h]
    exact ⟨rfl, rfl⟩

theorem getD_set_none_ne (l : List (Option PatternDatabase)) (a j : Nat) (h : j ≠ a) :
    (l.set a none).getD j none = l.getD j none := by
  rw [List.getD_eq_getElem?_getD, List.getD_eq_getElem?_getD, List.getElem?_set]
  have h' : ¬ a = j := fun e => h e.symm
  simp [h']

theorem getD_set_none_self (l : List (Option PatternDatabase)) (a : Nat) :
    (l.set a none).getD a none = none := by
  rw [List.getD_eq_getElem?_getD, List.getElem?_set]
  by_cases h : a < l.length <;> simp [h]

/-- What a visit does to the best improvement and index found so far. -/
theorem find_best_visit_selection (T : Task S) (C : Collaborators S H W) (samples : List S)
    (a : Nat) (self : PatternGenerationHaslum S H W) (best : BestSoFar) :
    best.improvement ≤ (find_best_visit T C samples a self best).2.improvement ∧
      (∀ pdb, best.candidate_pdbs.getD a none = some pdb → fits_collection C self pdb = true →
        improvement_count T C self samples pdb ≤
          (find_best_visit T C samples a self best).2.improvement) ∧
      (((find_best_visit T C samples a self best).2.improvement = best.improvement ∧
          (find_best_visit T C samples a self best).2.best_pdb_index = best.best_pdb_index) ∨
        (best.improvement < (find_best_visit T C samples a self best).2.improvement ∧
          (find_best_visit T C samples a self best).2.best_pdb_index = (a : Int) ∧
          ∃ pdb, best.candidate_pdbs.getD a none = some pdb ∧
            fits_collection C self pdb = true ∧
            improvement_count T C self samples pdb =
              (find_best_visit T C samples a self best).2.improvement)) := by
  rcases find_best_visit_cases T C samples a self best with
    ⟨hget, h⟩ | ⟨pdb, hget, hfit, h⟩ | ⟨pdb, hget, hfit, -, ⟨hgt, h⟩ | ⟨hle, h⟩⟩
  · rw [h]
    refine ⟨le_refl _, ?_, Or.inl ⟨rfl, rfl⟩⟩
    intro pdb' hget'
    rw [hget] at hget'
    cases hget'
  · rw [h]
    refine ⟨le_refl _, ?_, Or.inl ⟨rfl, rfl⟩⟩
    intro pdb' hget' hfit'
    rw [hget] at hget'
    cases hget'
    rw [hfit] at hfit'
    cases hfit'
  · rw [h]
    refine ⟨le_of_lt hgt, ?_, Or.inr ⟨hgt, rfl, pdb, hget, hfit, rfl⟩⟩
    intro pdb' hget' _
    rw [hget] at hget'
    cases hget'
    exact le_refl _
  · rw [h]
    refine ⟨le_refl _, ?_, Or.inl ⟨rfl, rfl⟩⟩
    intro pdb' hget' _
    rw [hget] at hget'
    cases hget'
    exact hle

/-- What a visit does to the vector of candidates and to the log. -/
theorem find_best_visit_candidates (T : Task S) (C : Collaborators S H W) (samples : List S)
    (a : Nat) (self : PatternGenerationHaslum S H W) (best : BestSoFar) :
    (find_best_visit T C samples a self best).2.candidate_pdbs.length =
        best.candidate_pdbs.length ∧
      (∀ j, j ≠ a → (find_best_visit T C samples a self best).2.candidate_pdbs.getD j none =
        best.candidate_pdbs.getD j none) ∧
      ((∃ pdb, best.candidate_pdbs.getD a none = some pdb ∧ fits_collection C self pdb = false ∧
          (find_best_visit T C samples a self best).2.candidate_pdbs.getD a none = none ∧
          (find_best_visit T C samples a self best).1.log = self.log) ∨
        ((find_best_visit T C samples a self best).2.candidate_pdbs.getD a none =
            best.candidate_pdbs.getD a none ∧
          (∀ pdb, best.candidate_pdbs.getD a none = some pdb →
            fits_collection C self pdb = true) ∧
          ((find_best_visit T C samples a self best).1.log = self.log ∨
            ((find_best_visit T C samples a self best).1.log =
                self.log ++ [Event.evaluate a] ∧
              ∃ pdb, best.candidate_pdbs.getD a none = some pdb ∧
                fits_collection C self pdb = true)))) := by
  rcases find_best_visit_cases T C samples a self best with
    ⟨hget, h⟩ | ⟨pdb, hget, hfit, h⟩ | ⟨pdb, hget, hfit, hlog, ⟨-, h⟩ | ⟨-, h⟩⟩
  · rw [h]
    refine ⟨rfl, fun _ _ => rfl, Or.inr ⟨rfl, ?_, Or.inl rfl⟩⟩
    intro pdb' hget'
    rw [hget] at hget'
    cases hget'
  · rw [h]
    refine ⟨List.length_set _ _ _, fun j hj => getD_set_none_ne _ a j hj,
      Or.inl ⟨pdb, hget, hfit, getD_set_none_self _ a, rfl⟩⟩
  · rw [h, hlog]
    refine ⟨rfl, fun _ _ => rfl, Or.inr ⟨rfl, ?_, Or.inr ⟨rfl, pdb, hget, hfit⟩⟩⟩
    intro pdb' hget'
    rw [hget] at hget'
    cases hget'
    exact hfit
  · rw [h, hlog]
    refine ⟨rfl, fun _ _ => rfl, Or.inr ⟨rfl, ?_, Or.inr ⟨rfl, pdb, hget, hfit⟩⟩⟩
    intro pdb' hget'
    rw [hget] at hget'
    cases hget'
    exact hfit

/-- The loop, when no timeout occurs, over the indices `a, ..., a + len - 1`:
the improvement found bounds the counts of all fitting candidates visited, and it
is either the one the loop started with or the count of the first fitting
candidate that attains it. -/
theorem find_best_loop_selection (T : Task S) (C : Collaborators S H W) (samples : List S) :
    ∀ (len a : Nat) (self : PatternGenerationHaslum S H W) (best : BestSoFar),
      (find_best_loop T C samples (List.range' a len) self best).2.2 = false →
      best.improvement ≤
          (find_best_loop T C samples (List.range' a len) self best).2.1.improvement ∧
        (∀ j pdb, a ≤ j → j < a + len → best.candidate_pdbs.getD j none = some pdb →
          fits_collection C self pdb = true →
          improvement_count T C self samples pdb ≤
            (find_best_loop T C samples (List.range' a len) self best).2.1.improvement) ∧
        (((find_best_loop T C samples (List.range' a len) self best).2.1.improvement
              = best.improvement ∧
            (find_best_loop T C samples (List.range' a len) self best).2.1.best_pdb_index
              = best.best_pdb_index) ∨
          (best.improvement <
              (find_best_loop T C samples (List.range' a len) self best).2.1.improvement ∧
            ∃ i pdb, a ≤ i ∧ i < a + len ∧
              (find_best_loop T C samples (List.range' a len) self best).2.1.best_pdb_index
                = (i : Int) ∧
              best.candidate_pdbs.getD i none = some pdb ∧
              fits_collection C self pdb = true ∧
              improvement_count T C self samples pdb =
                (find_best_loop T C samples (List.range' a len) self best).2.1.improvement ∧
              ∀ j pdb', a ≤ j → j < i → best.candidate_pdbs.getD j none = some pdb' →
                fits_collection C self pdb' = true →
                improvement_count T C self samples pdb' <
                  (find_best_loop T C samples (List.range' a len) self
                    best).2.1.improvement)) := by
  intro len
  induction len with
  | zero =>
    intro a self best _
    simp only [List.range'_zero, find_best_loop]
    refine ⟨le_refl _, ?_, Or.inl ⟨trivial, trivial⟩⟩
    intro j pdb h1 h2
    omega
  | succ n ih =>
    intro a self best hret
    rw [List.range'_succ, find_best_loop_cons] at hret ⊢
    by_cases hexp : (C.timer_expired self.world).1 = true
    · rw [if_pos hexp] at hret
      cases hret
    · rw [if_neg hexp] at hret ⊢
      have hsame := find_best_visit_same T C samples a
        { self with world := (C.timer_expired self.world).2 } best
      have hfit : ∀ pdb, fits_collection C (find_best_visit T C samples a
          { self with world := (C.timer_expired self.world).2 } best).1 pdb =
          fits_collection C self pdb :=
        fun pdb => fits_collection_congr C self _ pdb hsame.1 hsame.2
      have hcount : ∀ pdb, improvement_count T C (find_best_visit T C samples a
          { self with world := (C.timer_expired self.world).2 } best).1 samples pdb =
          improvement_count T C self samples pdb :=
        fun pdb => improvement_count_congr T C self _ samples pdb hsame.1
      obtain ⟨s1, s2, s3⟩ := find_best_visit_selection T C samples a
        { self with world := (C.timer_expired self.world).2 } best
      obtain ⟨-, s4, -⟩ := find_best_visit_candidates T C samples a
        { self with world := (C.timer_expired self.world).2 } best
      have s2' : ∀ pdb, best.candidate_pdbs.getD a none = some pdb →
          fits_collection C self pdb = true →
          improvement_count T C self samples pdb ≤ (find_best_visit T C samples a
            { self with world := (C.timer_expired self.world).2 } best).2.improvement :=
        fun pdb h1 h2 => s2 pdb h1 h2
      obtain ⟨ih1, ih2, ih3⟩ := ih (a + 1) _ _ hret
      have ih2' : ∀ j pdb, a + 1 ≤ j → j < a + (n + 1) →
          best.candidate_pdbs.getD j none = some pdb → fits_collection C self pdb = true →
          improvement_count T C self samples pdb ≤
            (find_best_loop T C samples (List.range' (a + 1) n)
              (find_best_visit T C samples a
                { self with world := (C.timer_expired self.world).2 } best).1
              (find_best_visit T C samples a
                { self with world := (C.timer_expired self.world).2 } best).2).2.1.improvement := by
        intro j pdb h1 h2 h3 h4
        have := ih2 j pdb h1 (by omega) (by rw [s4 j (by omega)]; exact h3)
          (by rw [hfit]; exact h4)
        rw [hcount] at this
        exact this
      refine ⟨le_trans s1 ih1, ?_, ?_⟩
      · intro j pdb h1 h2 h3 h4
        by_cases hja : j = a
        · subst hja
          exact le_trans (s2' pdb h3 h4) ih1
        · exact ih2' j pdb (by omega) h2 h3 h4
      · rcases ih3 with ⟨e1, e2⟩ | ⟨hlt, i, pdb, hi1, hi2, hidx, hget, hfit', hcnt, hfirst⟩
        · rcases s3 with ⟨t1, t2⟩ | ⟨hlt, hidx, pdb, hget, hfit', hcnt⟩
          · left
            exact ⟨by rw [e1, t1], by rw [e2, t2]⟩
          · right
            refine ⟨by rw [e1]; exact hlt, a, pdb, le_refl _, by omega, by rw [e2, hidx], hget,
              hfit', by rw [e1]; exact hcnt, ?_⟩
            intro j pdb' h1 h2
            omega
        · right
          refine ⟨lt_of_le_of_lt s1 hlt, i, pdb, by omega, by omega, hidx,
            by rw [← s4 i (by omega)]; exact hget, by rw [← hfit]; exact hfit',
            by rw [← hcount]; exact hcnt, ?_⟩
          intro j pdb' h1 h2 h3 h4
          by_cases hja : j = a
          · subst hja
            exact lt_of_le_of_lt (s2' pdb' h3 h4) hlt
          · have := hfirst j pdb' (by omega) h2 (by rw [s4 j hja]; exact h3)
              (by rw [hfit]; exact h4)
            rw [hcount] at this
            exact this

/-- The loop over the indices `a, ..., a + len - 1`, whether or not it is left by
a timeout: only candidates that do not fit are deleted, only candidates that fit
are evaluated, and without a timeout every visited candidate that does not fit
is deleted. -/
theorem find_best_loop_candidates (T : Task S) (C : Collaborators S H W) (samples : List S) :
    ∀ (len a : Nat) (self : PatternGenerationHaslum S H W) (best : BestSoFar),
      (find_best_loop T C samples (List.range' a len) self best).2.1.candidate_pdbs.length =
          best.candidate_pdbs.length ∧
        (∀ j,
          (find_best_loop T C samples (List.range' a len) self best).2.1.candidate_pdbs.getD j
              none = best.candidate_pdbs.getD j none ∨
            (a ≤ j ∧ j < a + len ∧
              (find_best_loop T C samples (List.range' a len) self
                best).2.1.candidate_pdbs.getD j none = none ∧
              ∃ pdb, best.candidate_pdbs.getD j none = some pdb ∧
                fits_collection C self pdb = false)) ∧
        ((find_best_loop T C samples (List.range' a len) self best).2.2 = false →
          ∀ j pdb, a ≤ j → j < a + len → best.candidate_pdbs.getD j none = some pdb →
            fits_collection C self pdb = false →
            (find_best_loop T C samples (List.range' a len) self
              best).2.1.candidate_pdbs.getD j none = none) ∧
        (∃ new, (find_best_loop T C samples (List.range' a len) self best).1.log =
            self.log ++ new ∧
          ∀ e ∈ new, ∃ i pdb, e = Event.evaluate i ∧ a ≤ i ∧ i < a + len ∧
            best.candidate_pdbs.getD i none = some pdb ∧
            fits_collection C self pdb = true) := by
  intro len
  induction len with
  | zero =>
    intro a self best
    simp only [List.range'_zero, find_best_loop]
    refine ⟨trivial, fun j => Or.inl trivial, ?_, [], by simp, by simp⟩
    intro _ j pdb h1 h2
    omega
  | succ n ih =>
    intro a self best
    rw [List.range'_succ, find_best_loop_cons]
    by_cases hexp : (C.timer_expired self.world).1 = true
    · rw [if_pos hexp]
      refine ⟨rfl, fun j => Or.inl rfl, ?_, [], by simp, by simp⟩
      intro h
      cases h
    · rw [if_neg hexp]
      have hsame := find_best_visit_same T C samples a
        { self with world := (C.timer_expired self.world).2 } best
      have hfit : ∀ pdb, fits_collection C (find_best_visit T C samples a
          { self with world := (C.timer_expired self.world).2 } best).1 pdb =
          fits_collection C self pdb :=
        fun pdb => fits_collection_congr C self _ pdb hsame.1 hsame.2
      obtain ⟨c1, c2, c3⟩ := find_best_visit_candidates T C samples a
        { self with world := (C.timer_expired self.world).2 } best
      have hfit_w : ∀ pdb, fits_collection C
          { self with world := (C.timer_expired self.world).2 } pdb =
          fits_collection C self pdb :=
        fun pdb => fits_collection_congr C self _ pdb rfl rfl
      obtain ⟨ih1, ih2, ih3, new', ih4, ih5⟩ := ih (a + 1) _ _
      have hat : (find_best_loop T C samples (List.range' (a + 1) n)
            (find_best_visit T C samples a
              { self with world := (C.timer_expired self.world).2 } best).1
            (find_best_visit T C samples a
              { self with world := (C.timer_expired self.world).2 }
                best).2).2.1.candidate_pdbs.getD a none =
          (find_best_visit T C samples a
            { self with world := (C.timer_expired self.world).2 }
              best).2.candidate_pdbs.getD a none := by
        rcases ih2 a with h | ⟨h, -⟩
        · exact h
        · omega
      refine ⟨ih1.trans c1, ?_, ?_, ?_⟩
      · intro j
        by_cases hja : j = a
        · subst hja
          rcases c3 with ⟨pdb, hget, hf, hnone, -⟩ | ⟨hsameEntry, -, -⟩
          · right
            refine ⟨le_refl _, by omega, by rw [hat]; exact hnone, pdb, hget, ?_⟩
            rw [← hfit_w]
            exact hf
          · left
            rw [hat]
            exact hsameEntry
        · rcases ih2 j with h | ⟨h1, h2, h3, pdb, h4, h5⟩
          · left
            rw [h]
            exact c2 j hja
          · right
            refine ⟨by omega, by omega, h3, pdb, by rw [← c2 j hja]; exact h4, ?_⟩
            rw [← hfit]
            exact h5
      · intro hret j pdb h1 h2 h3 h4
        by_cases hja : j = a
        · subst hja
          rw [hat]
          rcases c3 with ⟨pdb', -, -, hnone, -⟩ | ⟨-, hall, -⟩
          · exact hnone
          · have := hall pdb h3
            rw [hfit_w, h4] at this
            cases this
        · exact ih3 hret j pdb (by omega) (by omega) (by rw [c2 j hja]; exact h3)
            (by rw [hfit]; exact h4)
      · have hnew' : ∀ e ∈ new', ∃ i pdb, e = Event.evaluate i ∧ a ≤ i ∧ i < a + (n + 1) ∧
            best.candidate_pdbs.getD i none = some pdb ∧
            fits_collection C self pdb = true := by
          intro e he
          obtain ⟨i, pdb, h1, h2, h3, h4, h5⟩ := ih5 e he
          refine ⟨i, pdb, h1, by omega, by omega, by rw [← c2 i (by omega)]; exact h4, ?_⟩
          rw [← hfit]
          exact h5
        have hlogs : (find_best_visit T C samples a
              { self with world := (C.timer_expired self.world).2 } best).1.log = self.log ∨
            ((find_best_visit T C samples a
                { self with world := (C.timer_expired self.world).2 } best).1.log =
                self.log ++ [Event.evaluate a] ∧
              ∃ pdb, best.candidate_pdbs.getD a none = some pdb ∧
                fits_collection C self pdb = true) := by
          rcases c3 with ⟨-, -, -, -, hl⟩ | ⟨-, -, hl | ⟨hl, pdb, hg, hf⟩⟩
          · exact Or.inl hl
          · exact Or.inl hl
          · exact Or.inr ⟨hl, pdb, hg, by rw [← hfit_w]; exact hf⟩
        rcases hlogs with hl | ⟨hl, pdb, hg, hf⟩
        · exact ⟨new', by rw [ih4, hl], hnew'⟩
        · refine ⟨Event.evaluate a :: new', by rw [ih4, hl]; simp, ?_⟩
          intro e he
          rcases List.mem_cons.1 he with rfl | he
          · exact ⟨a, pdb, rfl, le_refl _, by omega, hg, hf⟩
          · exact hnew' e he

theorem lt_length_of_getD_eq_some (l : List (Option PatternDatabase)) (j : Nat)
    (pdb : PatternDatabase) (h : l.getD j none = some pdb) : j < l.length := by
  by_contra hlt
  rw [List.getD_eq_getElem?_getD, List.getElem?_eq_none (by omega)] at h
  cases h

/-- What `find_best_improving_pdb` computes when it returns. -/
theorem find_best_improving_pdb_returned (T : Task S) (C : Collaborators S H W)
    (self : PatternGenerationHaslum S H W) (samples : List S)
    (candidate_pdbs : List (Option PatternDatabase)) (improvement best_pdb_index : Int)
    (hret : (find_best_improving_pdb T C self samples candidate_pdbs).2.2 =
      some (improvement, best_pdb_index)) :
    (find_best_loop T C samples (List.range' 0 candidate_pdbs.length) self
        { improvement := 0, best_pdb_index := -1,
          candidate_pdbs := candidate_pdbs }).2.2 = false ∧
      (find_best_loop T C samples (List.range' 0 candidate_pdbs.length) self
        { improvement := 0, best_pdb_index := -1,
          candidate_pdbs := candidate_pdbs }).2.1.improvement = improvement ∧
      (find_best_loop T C samples (List.range' 0 candidate_pdbs.length) self
        { improvement := 0, best_pdb_index := -1,
          candidate_pdbs := candidate_pdbs }).2.1.best_pdb_index = best_pdb_index := by
  unfold find_best_improving_pdb at hret
  rw [List.range_eq_range'] at hret
  dsimp only at hret
  split at hret
  · cases hret
  · rename_i hflag
    simp only [Option.some.injEq, Prod.mk.injEq] at hret
    simp only [Bool.not_eq_true] at hflag
    exact ⟨hflag, hret.1, hret.2⟩

/-- When `find_best_improving_pdb` returns (the timer not expiring), the
returned improvement is the maximum, over the candidates that are non-null and
pass the test of lines 193-194 on the `int` `combined_size`, of the number of
samples on which `is_heuristic_improved` holds: it is at least 0, no such
candidate has a larger count, and it is 0 when there is no such candidate; if it
is at least 1, the returned index is the smallest index of such a candidate whose
count attains it; and the index is -1 exactly when the improvement is 0. -/
theorem find_best_improving_pdb_selected (T : Task S) (C : Collaborators S H W)
    (self : PatternGenerationHaslum S H W) (samples : List S)
    (candidate_pdbs : List (Option PatternDatabase)) (improvement best_pdb_index : Int)
    (hret : (find_best_improving_pdb T C self samples candidate_pdbs).2.2 =
      some (improvement, best_pdb_index)) :
    0 ≤ improvement ∧
      (∀ j pdb, candidate_pdbs.getD j none = some pdb → fits_collection C self pdb = true →
        improvement_count T C self samples pdb ≤ improvement) ∧
      ((¬ ∃ j pdb, candidate_pdbs.getD j none = some pdb ∧ fits_collection C self pdb = true) →
        improvement = 0) ∧
      (1 ≤ improvement →
        ∃ (i : Nat) (pdb : PatternDatabase), best_pdb_index = (i : Int) ∧ candidate_pdbs.getD i none = some pdb ∧
          fits_collection C self pdb = true ∧
          improvement_count T C self samples pdb = improvement ∧
          ∀ j pdb', j < i → candidate_pdbs.getD j none = some pdb' →
            fits_collection C self pdb' = true →
            improvement_count T C self samples pdb' < improvement) ∧
      (best_pdb_index = -1 ↔ improvement = 0) := by
  obtain ⟨hflag, himp, hidx⟩ :=
    find_best_improving_pdb_returned T C self samples candidate_pdbs improvement best_pdb_index
      hret
  obtain ⟨h1, h2, h3⟩ := find_best_loop_selection T C samples candidate_pdbs.length 0 self
    { improvement := 0, best_pdb_index := -1, candidate_pdbs := candidate_pdbs } hflag
  rw [himp] at h1 h2 h3
  rw [hidx] at h3
  have hbound : ∀ j pdb, candidate_pdbs.getD j none = some pdb →
      fits_collection C self pdb = true →
      improvement_count T C self samples pdb ≤ improvement := by
    intro j pdb hget hfit
    have hj := lt_length_of_getD_eq_some candidate_pdbs j pdb hget
    exact h2 j pdb (Nat.zero_le _) (by omega) hget hfit
  refine ⟨h1, hbound, ?_, ?_, ?_⟩
  · intro hnone
    rcases h3 with ⟨e, -⟩ | ⟨-, i, pdb, -, -, -, hget, hfit, -⟩
    · exact e
    · exact absurd ⟨i, pdb, hget, hfit⟩ hnone
  · intro hpos
    rcases h3 with ⟨e, -⟩ | ⟨-, i, pdb, -, -, hi, hget, hfit, hcnt, hfirst⟩
    · dsimp only at e
      omega
    · exact ⟨i, pdb, hi, hget, hfit, hcnt,
        fun j pdb' hj hg hf => hfirst j pdb' (Nat.zero_le _) hj hg hf⟩
  · rcases h3 with ⟨e1, e2⟩ | ⟨hlt, i, pdb, -, -, hi, -⟩
    · dsimp only at e1 e2
      exact ⟨fun _ => e1, fun _ => e2⟩
    · dsimp only at hlt
      constructor
      · intro h
        omega
      · intro h
        omega

/-- C16 (divergence). With a collection of 1500000000 abstract states, the
limit 2000000000 and a single candidate of 1500000000 abstract states, the
candidate's size added to the collection's size is 3000000000 and exceeds the
limit, so that no candidate is non-null and within the collection size limit
and the improvement to return is 0 with index -1. The `int` `combined_size`
holds -1294967296 instead, the candidate passes the test of lines 193-194, stays
in the vector and is evaluated on the samples, and the call returns the
improvement 2 and the index 0. -/
theorem find_best_improving_pdb_overflow :
    largeCandidates.getD 0 none = some ⟨[0, 1], 1500000000⟩ ∧
      largeCollaborators.get_size largeObject.current_heuristic + 1500000000 >
        largeObject.collection_max_size ∧
      wrapInt32 (largeCollaborators.get_size largeObject.current_heuristic + 1500000000) =
        -1294967296 ∧
      fits_collection largeCollaborators largeObject ⟨[0, 1], 1500000000⟩ = true ∧
      improvement_count demoTask largeCollaborators largeObject demoSamples
        ⟨[0, 1], 1500000000⟩ = 2 ∧
      (find_best_improving_pdb demoTask largeCollaborators largeObject demoSamples
        largeCandidates).1.log = [Event.evaluate 0] ∧
      (find_best_improving_pdb demoTask largeCollaborators largeObject demoSamples
        largeCandidates).2.1 = largeCandidates ∧
      (find_best_improving_pdb demoTask largeCollaborators largeObject demoSamples
        largeCandidates).2.2 = some (2, 0) :=
  ⟨by decide, by decide, by decide, by decide, by decide, rfl, by decide, by decide⟩

/-- In `find_best_improving_pdb`, whether or not the call ends in a timeout, the
only entries that change are those of non-null candidates that fail the test of
lines 193-194 on the `int` `combined_size`, which become null, and only non-null
candidates that pass it are evaluated on the samples. When the call returns,
every non-null candidate that fails the test has been set to null, and the
returned index is -1 or refers to a candidate that was non-null, passes the test
and is still non-null. -/
theorem find_best_improving_pdb_candidates (T : Task S) (C : Collaborators S H W)
    (self : PatternGenerationHaslum S H W) (samples : List S)
    (candidate_pdbs : List (Option PatternDatabase)) :
    (find_best_improving_pdb T C self samples candidate_pdbs).2.1.length =
        candidate_pdbs.length ∧
      (∀ j,
        (find_best_improving_pdb T C self samples candidate_pdbs).2.1.getD j none =
            candidate_pdbs.getD j none ∨
          ((find_best_improving_pdb T C self samples candidate_pdbs).2.1.getD j none = none ∧
            ∃ pdb, candidate_pdbs.getD j none = some pdb ∧
              fits_collection C self pdb = false)) ∧
      (∃ new, (find_best_improving_pdb T C self samples candidate_pdbs).1.log =
          self.log ++ new ∧
        ∀ e ∈ new, ∃ i pdb, e = Event.evaluate i ∧ candidate_pdbs.getD i none = some pdb ∧
          fits_collection C self pdb = true) ∧
      (∀ improvement best_pdb_index,
        (find_best_improving_pdb T C self samples candidate_pdbs).2.2 =
            some (improvement, best_pdb_index) →
          (∀ j pdb, candidate_pdbs.getD j none = some pdb →
            fits_collection C self pdb = false →
            (find_best_improving_pdb T C self samples candidate_pdbs).2.1.getD j none = none) ∧
          (best_pdb_index = -1 ∨
            ∃ (i : Nat) (pdb : PatternDatabase), best_pdb_index = (i : Int) ∧ candidate_pdbs.getD i none = some pdb ∧
              fits_collection C self pdb = true ∧
              (find_best_improving_pdb T C self samples candidate_pdbs).2.1.getD i none =
                some pdb)) := by
  obtain ⟨b1, b2, b3, new, b4, b5⟩ := find_best_loop_candidates T C samples
    candidate_pdbs.length 0 self
    { improvement := 0, best_pdb_index := -1, candidate_pdbs := candidate_pdbs }
  have hloop : (find_best_improving_pdb T C self samples candidate_pdbs).2.1 =
      (find_best_loop T C samples (List.range' 0 candidate_pdbs.length) self
        { improvement := 0, best_pdb_index := -1,
          candidate_pdbs := candidate_pdbs }).2.1.candidate_pdbs := by
    unfold find_best_improving_pdb
    rw [List.range_eq_range']
  have hlog : (find_best_improving_pdb T C self samples candidate_pdbs).1 =
      (find_best_loop T C samples (List.range' 0 candidate_pdbs.length) self
        { improvement := 0, best_pdb_index := -1,
          candidate_pdbs := candidate_pdbs }).1 := by
    unfold find_best_improving_pdb
    rw [List.range_eq_range']
  rw [hloop, hlog]
  have hall : ∀ j,
      (find_best_loop T C samples (List.range' 0 candidate_pdbs.length) self
          { improvement := 0, best_pdb_index := -1,
            candidate_pdbs := candidate_pdbs }).2.1.candidate_pdbs.getD j none =
          candidate_pdbs.getD j none ∨
        ((find_best_loop T C samples (List.range' 0 candidate_pdbs.length) self
            { improvement := 0, best_pdb_index := -1,
              candidate_pdbs := candidate_pdbs }).2.1.candidate_pdbs.getD j none = none ∧
          ∃ pdb, candidate_pdbs.getD j none = some pdb ∧
            fits_collection C self pdb = false) := by
    intro j
    rcases b2 j with h | ⟨-, -, h, hp⟩
    · exact Or.inl h
    · exact Or.inr ⟨h, hp⟩
  refine ⟨b1, hall, ⟨new, b4, ?_⟩, ?_⟩
  · intro e he
    obtain ⟨i, pdb, h1, -, -, h2, h3⟩ := b5 e he
    exact ⟨i, pdb, h1, h2, h3⟩
  · intro improvement best_pdb_index hret
    obtain ⟨hflag, himp, hidx⟩ :=
      find_best_improving_pdb_returned T C self samples candidate_pdbs improvement
        best_pdb_index hret
    constructor
    · intro j pdb hget hfit
      have hj := lt_length_of_getD_eq_some candidate_pdbs j pdb hget
      exact b3 hflag j pdb (Nat.zero_le _) (by omega) hget hfit
    · obtain ⟨-, -, h3⟩ := find_best_loop_selection T C samples candidate_pdbs.length 0 self
        { improvement := 0, best_pdb_index := -1, candidate_pdbs := candidate_pdbs } hflag
      rw [hidx] at h3
      rcases h3 with ⟨-, e⟩ | ⟨-, i, pdb, -, -, hi, hget, hfit, -⟩
      · left
        exact e
      · right
        refine ⟨i, pdb, hi, hget, hfit, ?_⟩
        rcases hall i with h | ⟨-, pdb', hget', hfit'⟩
        · exact h.trans hget
        · dsimp only at hget hget'
          rw [hget] at hget'
          cases hget'
          rw [hfit] at hfit'
          cases hfit'

/-- When the sum of the two sizes is in the range of `int`, the test of lines
193-194 compares the sum itself with `collection_max_size`. -/
theorem fits_collection_of_inInt32 (C : Collaborators S H W)
    (self : PatternGenerationHaslum S H W) (pdb : PatternDatabase)
    (h : inInt32 (C.get_size self.current_heuristic + pdb.size)) :
    fits_collection C self pdb =
      decide (C.get_size self.current_heuristic + pdb.size ≤ self.collection_max_size) := by
  unfold fits_collection
  rw [wrapInt32_of_inInt32 _ h]
  simp

/-- C12 (as stated, refuted). The candidate at index 2 is non-null and its size
40 added to the collection's size 4 exceeds the limit 20, but the timer expires
at the third check: the call ends in `HillClimbingTimeout` with the candidate
still in the vector, neither deleted nor set to null. -/
theorem find_best_improving_pdb_timeout_counterexample :
    demoCandidates.getD 2 none = some ⟨[0, 2], 40⟩ ∧
      expiringCollaborators.get_size demoObject.current_heuristic + 40 >
        demoObject.collection_max_size ∧
      (find_best_improving_pdb demoTask expiringCollaborators demoObject demoSamples
        demoCandidates).2.1.getD 2 none = some ⟨[0, 2], 40⟩ ∧
      (find_best_improving_pdb demoTask expiringCollaborators demoObject demoSamples
        demoCandidates).2.2 = none := by
  decide

/-- C12 (amended). In `find_best_improving_pdb`, for candidates whose size added
to the collection's size is in the range of `int`: whether or not the call ends
in `HillClimbingTimeout`, the only entries that change are those of non-null
candidates whose size added to the collection's size exceeds
`collection_max_size`, which become null, and no such candidate is evaluated on
the samples (every evaluation is of a non-null candidate within the limit). When
the call returns, every non-null candidate whose size added to the collection's
size exceeds `collection_max_size` has been set to null, and the returned index
is -1 or refers to a candidate that was non-null and within the limit and is
still non-null. -/
theorem find_best_improving_pdb_collection_limit (T : Task S) (C : Collaborators S H W)
    (self : PatternGenerationHaslum S H W) (samples : List S)
    (candidate_pdbs : List (Option PatternDatabase))
    (hsum : ∀ j pdb, candidate_pdbs.getD j none = some pdb →
      inInt32 (C.get_size self.current_heuristic + pdb.size)) :
    (find_best_improving_pdb T C self samples candidate_pdbs).2.1.length =
        candidate_pdbs.length ∧
      (∀ j,
        (find_best_improving_pdb T C self samples candidate_pdbs).2.1.getD j none =
            candidate_pdbs.getD j none ∨
          ((find_best_improving_pdb T C self samples candidate_pdbs).2.1.getD j none = none ∧
            ∃ pdb, candidate_pdbs.getD j none = some pdb ∧
              C.get_size self.current_heuristic + pdb.size > self.collection_max_size)) ∧
      (∃ new, (find_best_improving_pdb T C self samples candidate_pdbs).1.log =
          self.log ++ new ∧
        ∀ e ∈ new, ∃ i pdb, e = Event.evaluate i ∧ candidate_pdbs.getD i none = some pdb ∧
          C.get_size self.current_heuristic + pdb.size ≤ self.collection_max_size) ∧
      (∀ improvement best_pdb_index,
        (find_best_improving_pdb T C self samples candidate_pdbs).2.2 =
            some (improvement, best_pdb_index) →
          (∀ j pdb, candidate_pdbs.getD j none = some pdb →
            C.get_size self.current_heuristic + pdb.size > self.collection_max_size →
            (find_best_improving_pdb T C self samples candidate_pdbs).2.1.getD j none = none) ∧
          (best_pdb_index = -1 ∨
            ∃ (i : Nat) (pdb : PatternDatabase), best_pdb_index = (i : Int) ∧
              candidate_pdbs.getD i none = some pdb ∧
              C.get_size self.current_heuristic + pdb.size ≤ self.collection_max_size ∧
              (find_best_improving_pdb T C self samples candidate_pdbs).2.1.getD i none =
                some pdb)) := by
  obtain ⟨h1, h2, ⟨new, h3, h4⟩, h5⟩ :=
    find_best_improving_pdb_candidates T C self samples candidate_pdbs
  have hfalse : ∀ j pdb, candidate_pdbs.getD j none = some pdb →
      fits_collection C self pdb = false →
      C.get_size self.current_heuristic + pdb.size > self.collection_max_size := by
    intro j pdb hget hfit
    rw [fits_collection_of_inInt32 C self pdb (hsum j pdb hget)] at hfit
    simpa using hfit
  have htrue : ∀ j pdb, candidate_pdbs.getD j none = some pdb →
      fits_collection C self pdb = true →
      C.get_size self.current_heuristic + pdb.size ≤ self.collection_max_size := by
    intro j pdb hget hfit
    rw [fits_collection_of_inInt32 C self pdb (hsum j pdb hget)] at hfit
    simpa using hfit
  refine ⟨h1, ?_, ⟨new, h3, ?_⟩, ?_⟩
  · intro j
    rcases h2 j with h | ⟨h, pdb, hget, hfit⟩
    · exact Or.inl h
    · exact Or.inr ⟨h, pdb, hget, hfalse j pdb hget hfit⟩
  · intro e he
    obtain ⟨i, pdb, he, hget, hfit⟩ := h4 e he
    exact ⟨i, pdb, he, hget, htrue i pdb hget hfit⟩
  · intro improvement best_pdb_index hret
    obtain ⟨h6, h7⟩ := h5 improvement best_pdb_index hret
    constructor
    · intro j pdb hget hgt
      apply h6 j pdb hget
      rw [fits_collection_of_inInt32 C self pdb (hsum j pdb hget)]
      simpa using hgt
    · rcases h7 with h | ⟨i, pdb, hi, hget, hfit, hres⟩
      · exact Or.inl h
      · exact Or.inr ⟨i, pdb, hi, hget, htrue i pdb hget hfit, hres⟩

theorem find_best_improving_pdb_collection_limit_witness :
    (find_best_improving_pdb demoTask demoCollaborators demoObject demoSamples
        demoCandidates).2.2 = some (2, 0) ∧
      demoCandidates.getD 2 none = some ⟨[0, 2], 40⟩ ∧
      demoCollaborators.get_size demoObject.current_heuristic + 40 >
        demoObject.collection_max_size ∧
      (find_best_improving_pdb demoTask demoCollaborators demoObject demoSamples
        demoCandidates).2.1.getD 2 none = none :=
  ⟨by decide, by decide, by decide,
    ((find_best_improving_pdb_collection_limit demoTask demoCollaborators demoObject
      demoSamples demoCandidates
      (by
        intro j pdb hget
        have hsize : pdb.size = 4 ∨ pdb.size = 40 := by
          rcases j with _ | _ | _ | _ | j
          · left
            cases hget
            rfl
          · cases hget
          · right
            cases hget
            rfl
          · left
            cases hget
            rfl
          · cases hget
        rcases hsize with h | h <;> rw [h] <;> decide)).2.2.2 2 0 (by decide)).1 2 ⟨[0, 2], 40⟩
      (by decide) (by decide)⟩

/-! ## The acceptance threshold of hill climbing -/

/-- The loop of `hill_climbing` is the repetition of `hill_climbing_iteration`. -/
theorem hill_climbing_loop_succ (T : Task S) (C : Collaborators S H W) (fuel : Nat)
    (self : PatternGenerationHaslum S H W) (L : Locals) :
    hill_climbing_loop T C (fuel + 1) self L =
      match hill_climbing_iteration T C self L with
      | Iteration.stopped s l => Outcome.done (s, l)
      | Iteration.added _ s l => hill_climbing_loop T C fuel s l
      | Iteration.undefined => Outcome.undefined := by
  rw [hill_climbing_loop]
  unfold hill_climbing_iteration hill_climbing_selection
  dsimp only
  split
  · rfl
  · split
    · rfl
    · split
      · rfl
      · split
        · rename_i hlt
          dsimp only
          rw [if_pos hlt]
        · rename_i hlt
          dsimp only
          rw [if_neg hlt]
          split <;> rfl

theorem generate_pdbs_for_candidates_heuristic (T : Task S)
    (self : PatternGenerationHaslum S H W) (generated_patterns new_candidates : List Pattern)
    (candidate_pdbs : List (Option PatternDatabase)) :
    (generate_pdbs_for_candidates T self generated_patterns new_candidates
        candidate_pdbs).1.current_heuristic = self.current_heuristic := by
  unfold generate_pdbs_for_candidates
  apply foldl_invariant
    (fun acc : PatternGenerationHaslum S H W × Candidates =>
      acc.1.current_heuristic = self.current_heuristic)
  · intro b a hb
    dsimp only
    split
    · exact hb
    · exact hb
  · rfl

theorem sample_loop_heuristic (C : Collaborators S H W) (n : Int) :
    ∀ (remaining : Nat) (self : PatternGenerationHaslum S H W) (samples : List S),
      (sample_loop C n remaining self samples).1.current_heuristic =
        self.current_heuristic := by
  intro remaining
  induction remaining with
  | zero => intro self samples; rfl
  | succ k ih =>
    intro self samples
    unfold sample_loop
    dsimp only
    split
    · rfl
    · rw [ih]

theorem find_best_loop_heuristic (T : Task S) (C : Collaborators S H W) (samples : List S) :
    ∀ (todo : List Nat) (self : PatternGenerationHaslum S H W) (best : BestSoFar),
      (find_best_loop T C samples todo self best).1.current_heuristic =
        self.current_heuristic := by
  intro todo
  induction todo with
  | nil => intro self best; rfl
  | cons i todo ih =>
    intro self best
    rw [find_best_loop_cons]
    split
    · rfl
    · rw [ih]
      exact (find_best_visit_same T C samples i _ best).1

/-- The part of an iteration up to the threshold test changes neither the
collection nor the four limits. -/
theorem hill_climbing_selection_frame (T : Task S) (C : Collaborators S H W)
    (self : PatternGenerationHaslum S H W) (L : Locals) :
    (hill_climbing_selection T C self L).1.current_heuristic = self.current_heuristic ∧
      (hill_climbing_selection T C self L).1.toMembers.limits = self.toMembers.limits := by
  have hg := generate_pdbs_for_candidates_limits T self L.generated_patterns
    L.new_candidates L.candidate_pdbs
  have hg' := generate_pdbs_for_candidates_heuristic T self L.generated_patterns
    L.new_candidates L.candidate_pdbs
  unfold hill_climbing_selection
  dsimp only
  split
  · exact ⟨rfl, rfl⟩
  · split
    · dsimp only
      unfold sample_states
      rw [sample_loop_limits, sample_loop_heuristic, hg, hg']
      exact ⟨rfl, rfl⟩
    · split
      · dsimp only
        unfold find_best_improving_pdb sample_states
        dsimp only
        rw [find_best_loop_limits, find_best_loop_heuristic, sample_loop_limits,
          sample_loop_heuristic, hg, hg']
        exact ⟨rfl, rfl⟩
      · dsimp only
        unfold find_best_improving_pdb sample_states
        dsimp only
        rw [find_best_loop_limits, find_best_loop_heuristic, sample_loop_limits,
          sample_loop_heuristic, hg, hg']
        exact ⟨rfl, rfl⟩

/-- When an iteration gets as far as the threshold test, the pair it tests is
the one returned by `find_best_improving_pdb`, called on an object with the
collection and the limits of the start of the iteration, and the candidates are
left as that call leaves them. -/
theorem hill_climbing_selection_reached (T : Task S) (C : Collaborators S H W)
    (self : PatternGenerationHaslum S H W) (L : Locals) (samples : List S)
    (improvement best_pdb_index : Int)
    (h : (hill_climbing_selection T C self L).2.2 =
      some (samples, improvement, best_pdb_index)) :
    ∃ (self' : PatternGenerationHaslum S H W) (cands : List (Option PatternDatabase)),
      self'.current_heuristic = self.current_heuristic ∧
      self'.toMembers.limits = self.toMembers.limits ∧
      (find_best_improving_pdb T C self' samples cands).2.2 =
        some (improvement, best_pdb_index) ∧
      (hill_climbing_selection T C self L).2.1.candidate_pdbs =
        (find_best_improving_pdb T C self' samples cands).2.1 := by
  have hg := generate_pdbs_for_candidates_limits T self L.generated_patterns
    L.new_candidates L.candidate_pdbs
  have hg' := generate_pdbs_for_candidates_heuristic T self L.generated_patterns
    L.new_candidates L.candidate_pdbs
  unfold hill_climbing_selection at h ⊢
  dsimp only at h ⊢
  split at h
  · cases h
  · rename_i hdead
    rw [if_neg hdead]
    split at h
    · cases h
    · rename_i samples' hs
      split at h
      · cases h
      · rename_i imp idx hf
        simp only [Option.some.injEq, Prod.mk.injEq] at h
        obtain ⟨rfl, rfl, rfl⟩ := h
        refine ⟨(sample_states T C (generate_pdbs_for_candidates T self L.generated_patterns
            L.new_candidates L.candidate_pdbs).1 []).1,
          (generate_pdbs_for_candidates T self L.generated_patterns
            L.new_candidates L.candidate_pdbs).2.candidate_pdbs, ?_, ?_, hf, ?_⟩
        · unfold sample_states
          rw [sample_loop_heuristic, hg']
        · unfold sample_states
          rw [sample_loop_limits, hg]
        · simp only [hs, hf]

/-- When `find_best_improving_pdb` returns, no candidate that is left non-null
has a count above the returned improvement, and if the improvement is at least 1
the entry at the returned index is a non-null candidate whose count is the
improvement. -/
theorem find_best_improving_pdb_remaining (T : Task S) (C : Collaborators S H W)
    (self : PatternGenerationHaslum S H W) (samples : List S)
    (candidate_pdbs : List (Option PatternDatabase)) (improvement best_pdb_index : Int)
    (hret : (find_best_improving_pdb T C self samples candidate_pdbs).2.2 =
      some (improvement, best_pdb_index)) :
    (∀ j pdb,
        (find_best_improving_pdb T C self samples candidate_pdbs).2.1.getD j none = some pdb →
        improvement_count T C self samples pdb ≤ improvement) ∧
      (1 ≤ improvement →
        ∃ best_pdb,
          best_candidate (find_best_improving_pdb T C self samples candidate_pdbs).2.1
            best_pdb_index = some best_pdb ∧
          improvement_count T C self samples best_pdb = improvement) := by
  obtain ⟨hflag, himp, hidx⟩ :=
    find_best_improving_pdb_returned T C self samples candidate_pdbs improvement best_pdb_index
      hret
  obtain ⟨-, h2, h3⟩ := find_best_loop_selection T C samples candidate_pdbs.length 0 self
    { improvement := 0, best_pdb_index := -1, candidate_pdbs := candidate_pdbs } hflag
  obtain ⟨-, b2, b3, -⟩ := find_best_loop_candidates T C samples candidate_pdbs.length 0 self
    { improvement := 0, best_pdb_index := -1, candidate_pdbs := candidate_pdbs }
  have hloop : (find_best_improving_pdb T C self samples candidate_pdbs).2.1 =
      (find_best_loop T C samples (List.range' 0 candidate_pdbs.length) self
        { improvement := 0, best_pdb_index := -1,
          candidate_pdbs := candidate_pdbs }).2.1.candidate_pdbs := by
    unfold find_best_improving_pdb
    rw [List.range_eq_range']
  rw [hloop]
  rw [himp] at h2 h3
  rw [hidx] at h3
  constructor
  · intro j pdb hout
    have hin : candidate_pdbs.getD j none = some pdb := by
      rcases b2 j with h | ⟨-, -, h, -⟩
      · exact h.symm.trans hout
      · rw [h] at hout
        cases hout
    have hj := lt_length_of_getD_eq_some candidate_pdbs j pdb hin
    cases hfit : fits_collection C self pdb with
    | true => exact h2 j pdb (Nat.zero_le _) (by omega) hin hfit
    | false =>
      have := b3 hflag j pdb (Nat.zero_le _) (by omega) hin hfit
      rw [this] at hout
      cases hout
  · intro hpos
    rcases h3 with ⟨e, -⟩ | ⟨-, i, pdb, -, -, hi, hget, hfit, hcnt, -⟩
    · dsimp only at e
      omega
    · refine ⟨pdb, ?_, hcnt⟩
      have hout : (find_best_loop T C samples (List.range' 0 candidate_pdbs.length) self
          { improvement := 0, best_pdb_index := -1,
            candidate_pdbs := candidate_pdbs }).2.1.candidate_pdbs.getD i none = some pdb := by
        rcases b2 i with h | ⟨-, -, -, pdb', hget', hfit'⟩
        · exact h.trans hget
        · dsimp only at hget hget'
          rw [hget] at hget'
          cases hget'
          rw [hfit] at hfit'
          cases hfit'
      unfold best_candidate
      rw [hi]
      simp only [Int.toNat_ofNat]
      rw [if_neg (by omega)]
      exact hout

/-- How an iteration ends, by the outcome of its first part. -/
theorem hill_climbing_iteration_cases (T : Task S) (C : Collaborators S H W)
    (self : PatternGenerationHaslum S H W) (L : Locals) (hmin : 1 ≤ self.min_improvement) :
    ((hill_climbing_selection T C self L).2.2 = none →
        hill_climbing_iteration T C self L =
          Iteration.stopped (hill_climbing_selection T C self L).1
            (hill_climbing_selection T C self L).2.1) ∧
      (∀ samples improvement best_pdb_index,
        (hill_climbing_selection T C self L).2.2 =
            some (samples, improvement, best_pdb_index) →
          (∀ j pdb,
            (hill_climbing_selection T C self L).2.1.candidate_pdbs.getD j none = some pdb →
            improvement_count T C self samples pdb ≤ improvement) ∧
          (improvement < self.min_improvement →
            hill_climbing_iteration T C self L =
              Iteration.stopped (hill_climbing_selection T C self L).1
                (hill_climbing_selection T C self L).2.1) ∧
          (self.min_improvement ≤ improvement →
            ∃ best_pdb s l,
              hill_climbing_iteration T C self L = Iteration.added best_pdb s l ∧
              best_candidate (hill_climbing_selection T C self L).2.1.candidate_pdbs
                best_pdb_index = some best_pdb ∧
              improvement_count T C self samples best_pdb = improvement ∧
              s.current_heuristic =
                C.add_pattern self.current_heuristic best_pdb.pattern)) := by
  obtain ⟨hheur, hlim⟩ := hill_climbing_selection_frame T C self L
  have hminsel : (hill_climbing_selection T C self L).1.min_improvement =
      self.min_improvement := by
    have := congrArg (fun t => t.2.2.2) hlim
    exact this
  constructor
  · intro hnone
    unfold hill_climbing_iteration
    dsimp only
    rw [hnone]
  · intro samples improvement best_pdb_index hsome
    obtain ⟨self', cands, hh, hl, hret, hcands⟩ :=
      hill_climbing_selection_reached T C self L samples improvement best_pdb_index hsome
    obtain ⟨r1, r2⟩ := find_best_improving_pdb_remaining T C self' samples cands improvement
      best_pdb_index hret
    have hcount : ∀ pdb, improvement_count T C self' samples pdb =
        improvement_count T C self samples pdb :=
      fun pdb => improvement_count_congr T C self self' samples pdb hh
    refine ⟨?_, ?_, ?_⟩
    · intro j pdb hget
      rw [hcands] at hget
      rw [← hcount]
      exact r1 j pdb hget
    · intro hlt
      unfold hill_climbing_iteration
      dsimp only
      rw [hsome]
      dsimp only
      rw [hminsel, if_pos hlt]
    · intro hge
      obtain ⟨best_pdb, hbest, hcnt⟩ := r2 (le_trans hmin hge)
      rw [← hcands] at hbest
      rw [hcount] at hcnt
      refine ⟨best_pdb,
        (generate_candidate_patterns T C
          { (hill_climbing_selection T C self L).1 with
            current_heuristic :=
              C.add_pattern (hill_climbing_selection T C self L).1.current_heuristic
                best_pdb.pattern,
            log := (hill_climbing_selection T C self L).1.log ++
              [Event.add_pattern best_pdb.pattern] }
          best_pdb []).1,
        { (hill_climbing_selection T C self L).2.1 with
          new_candidates := (generate_candidate_patterns T C
            { (hill_climbing_selection T C self L).1 with
              current_heuristic :=
                C.add_pattern (hill_climbing_selection T C self L).1.current_heuristic
                  best_pdb.pattern,
              log := (hill_climbing_selection T C self L).1.log ++
                [Event.add_pattern best_pdb.pattern] }
            best_pdb []).2,
          candidate_pdbs :=
            (hill_climbing_selection T C self L).2.1.candidate_pdbs.set
              best_pdb_index.toNat none },
        ?_, hbest, hcnt, ?_⟩
      · unfold hill_climbing_iteration
        dsimp only
        rw [hsome]
        dsimp only
        rw [hminsel, if_neg (by omega), hbest]
      · obtain ⟨n, hn⟩ := generate_candidate_patterns_frame T C
          { (hill_climbing_selection T C self L).1 with
            current_heuristic :=
              C.add_pattern (hill_climbing_selection T C self L).1.current_heuristic
                best_pdb.pattern,
            log := (hill_climbing_selection T C self L).1.log ++
              [Event.add_pattern best_pdb.pattern] }
          best_pdb []
        rw [hn]
        dsimp only
        rw [hheur]

/-- C13. In an iteration of hill climbing on an object with `min_improvement >=
1`, a pattern is added to the collection if and only if the iteration gets as
far as the threshold test (no dead end, no timeout) and the improvement of the
best candidate is at least `min_improvement`; the pattern added is that of the
candidate at the returned index, whose count on the samples is that improvement,
which no remaining candidate exceeds. When the improvement is below
`min_improvement` the loop ends in that iteration, with the collection
unchanged; when a pattern is added the loop goes on. -/
theorem hill_climbing_threshold (T : Task S) (C : Collaborators S H W)
    (self : PatternGenerationHaslum S H W) (L : Locals) (hmin : 1 ≤ self.min_improvement) :
    ((∃ best_pdb s l, hill_climbing_iteration T C self L = Iteration.added best_pdb s l) ↔
        (∃ samples improvement best_pdb_index,
          (hill_climbing_selection T C self L).2.2 =
            some (samples, improvement, best_pdb_index) ∧
          self.min_improvement ≤ improvement)) ∧
      (∀ samples improvement best_pdb_index,
        (hill_climbing_selection T C self L).2.2 =
            some (samples, improvement, best_pdb_index) →
          (∀ j pdb,
            (hill_climbing_selection T C self L).2.1.candidate_pdbs.getD j none = some pdb →
            improvement_count T C self samples pdb ≤ improvement) ∧
          (improvement < self.min_improvement →
            ∃ s l, hill_climbing_iteration T C self L = Iteration.stopped s l ∧
              s.current_heuristic = self.current_heuristic ∧
              ∀ fuel, hill_climbing_loop T C (fuel + 1) self L = Outcome.done (s, l)) ∧
          (self.min_improvement ≤ improvement →
            ∃ best_pdb s l,
              hill_climbing_iteration T C self L = Iteration.added best_pdb s l ∧
              best_candidate (hill_climbing_selection T C self L).2.1.candidate_pdbs
                best_pdb_index = some best_pdb ∧
              improvement_count T C self samples best_pdb = improvement ∧
              s.current_heuristic = C.add_pattern self.current_heuristic best_pdb.pattern ∧
              ∀ fuel, hill_climbing_loop T C (fuel + 1) self L =
                hill_climbing_loop T C fuel s l)) := by
  obtain ⟨hnone, hsome⟩ := hill_climbing_iteration_cases T C self L hmin
  obtain ⟨hheur, -⟩ := hill_climbing_selection_frame T C self L
  constructor
  · constructor
    · rintro ⟨best_pdb, s, l, hadd⟩
      cases hsel : (hill_climbing_selection T C self L).2.2 with
      | none =>
        rw [hnone hsel] at hadd
        cases hadd
      | some r =>
        obtain ⟨samples, improvement, best_pdb_index⟩ := r
        refine ⟨samples, improvement, best_pdb_index, rfl, ?_⟩
        by_contra hlt
        rw [(hsome samples improvement best_pdb_index hsel).2.1 (by omega)] at hadd
        cases hadd
    · rintro ⟨samples, improvement, best_pdb_index, hsel, hge⟩
      obtain ⟨best_pdb, s, l, hadd, -⟩ :=
        (hsome samples improvement best_pdb_index hsel).2.2 hge
      exact ⟨best_pdb, s, l, hadd⟩
  · intro samples improvement best_pdb_index hsel
    obtain ⟨h1, h2, h3⟩ := hsome samples improvement best_pdb_index hsel
    refine ⟨h1, ?_, ?_⟩
    · intro hlt
      refine ⟨_, _, h2 hlt, hheur, ?_⟩
      intro fuel
      rw [hill_climbing_loop_succ, h2 hlt]
    · intro hge
      obtain ⟨best_pdb, s, l, hadd, hbest, hcnt, hs⟩ := h3 hge
      refine ⟨best_pdb, s, l, hadd, hbest, hcnt, hs, ?_⟩
      intro fuel
      rw [hill_climbing_loop_succ, hadd]

theorem hill_climbing_threshold_witness :
    ∃ best_pdb s l,
      hill_climbing_iteration demoTask demoCollaborators demoObject demoLocals =
        Iteration.added best_pdb s l :=
  (hill_climbing_threshold demoTask demoCollaborators demoObject demoLocals
    (by decide)).1.2 ⟨[0, 1, 2], 2, 0, by decide, by decide⟩

end PatternGenerationHaslum

end pdbs
